import Mathlib

/-!
Verification development for the CPU process-scheduler simulator (`sim.py`).

The source program is shallowly embedded:
* `Process`, `Event`, `EventQueue` mirror the Python classes; event times and
  burst durations are Python integers, modelled as `Int`; process ids are `Nat`.
* Python object references to processes are modelled by storing the process id
  and looking the process up in the simulation's store (`SimSt.procs`); the
  provided workloads have distinct ids, so this models reference aliasing.
* `queue.sort(reverse=True)` (a stable descending sort driven by
  `Event.__lt__`) is modelled by `List.insertionSort` with the complement of
  the strict order, which is the unique stable descending sort.
* Exceptions (`LookupError`, `IndexError`, `AttributeError`) are modelled with
  `Except String`; the interpreter accumulates the trace of scheduling
  decisions produced so far even when an exception aborts the run.
* The unbounded `while` loops of `Sim.run` are modelled with fuel; the
  termination theorem exhibits a concrete sufficient fuel bound.
-/

/-- `ARRIVAL = 0` (sim.py line 4). -/
def ARRIVAL : Nat := 0

/-- `UNBLOCK = 1` (sim.py line 5). -/
def UNBLOCK : Nat := 1

/-- `Process` (sim.py lines 10-19): id, arrival time and the mutable list of
remaining activity durations. -/
structure Process where
  pid : Nat
  arrive : Int
  activities : List Int
deriving DecidableEq

/-- `Event` (sim.py lines 22-38): kind, owning process (by id) and due time. -/
structure Event where
  etype : Nat
  pid : Nat
  time : Int
deriving DecidableEq

/-- `Event.__lt__` (sim.py lines 28-35): lexicographic on (time, kind, pid). -/
def evLt (a b : Event) : Bool :=
  if a.time = b.time then
    if a.etype = b.etype then decide (a.pid < b.pid)
    else decide (a.etype < b.etype)
  else decide (a.time < b.time)

/-- The complement of `evLt`: `a` may precede `b` in a descending sort. -/
def evGe (a b : Event) : Prop := evLt a b = false

instance : DecidableRel evGe := fun a b => by unfold evGe; infer_instance

/-- `self.queue.sort(reverse=True)` (sim.py line 57): Python performs the
unique stable descending sort for `Event.__lt__`; so does stable insertion
sort with the complemented comparison. -/
def sortDesc (l : List Event) : List Event := List.insertionSort evGe l

/-- `EventQueue` (sim.py lines 41-87): an unordered backing list plus a dirty
flag. -/
structure EventQueue where
  queue : List Event
  dirty : Bool
deriving DecidableEq

/-- `EventQueue.push` (sim.py lines 46-51): append and mark dirty (the
non-`Event` `TypeError` branch is excluded by typing). -/
def EventQueue.push (q : EventQueue) (e : Event) : EventQueue :=
  { queue := q.queue ++ [e], dirty := true }

/-- The sort-if-dirty part of `EventQueue.__prepareLookup` (sim.py lines
56-58). -/
def EventQueue.prepare (q : EventQueue) : EventQueue :=
  if q.dirty then { queue := sortDesc q.queue, dirty := false } else q

/-- `EventQueue.peek` (sim.py lines 64-66): error on empty, else sort if
dirty and return the last element (`self.queue[-1]`), together with the
updated backing state. -/
def EventQueue.peekE (q : EventQueue) : Except String (Event × EventQueue) :=
  if q.queue = [] then Except.error "Peek on empty EventQueue"
  else
    match (q.prepare).queue.getLast? with
    | some e => Except.ok (e, q.prepare)
    | none => Except.error "unreachable: prepare of a nonempty queue is nonempty"

/-- `EventQueue.pop` (sim.py lines 60-62): error on empty, else sort if dirty
and remove and return the last element (`self.queue.pop()`). -/
def EventQueue.popE (q : EventQueue) : Except String (Event × EventQueue) :=
  if q.queue = [] then Except.error "Pop on empty EventQueue"
  else
    match (q.prepare).queue.getLast? with
    | some e => Except.ok (e, { queue := (q.prepare).queue.dropLast, dirty := false })
    | none => Except.error "unreachable: prepare of a nonempty queue is nonempty"

/-- `EventQueue.hasEvent` (sim.py lines 71-72). -/
def EventQueue.hasEvent (q : EventQueue) : Bool := decide (0 < q.queue.length)

/-- `EventQueue.empty` (sim.py lines 68-69). -/
def EventQueue.isEmpty (q : EventQueue) : Bool := decide (q.queue.length = 0)

/-- The scheduler variants and their own ready-queue state
(`FCFS_Scheduler.ready_queue`, `SPN_Scheduler.ready_queue`), holding
process ids. -/
inductive Sched where
  | fcfs (ready : List Nat)
  | spn (ready : List Nat)
deriving DecidableEq

/-- The simulation engine state `Sim` (sim.py lines 188-193): clock, process
store, event queue, remaining running time, scheduler state. -/
structure SimSt where
  clock : Int
  procs : List Process
  events : EventQueue
  runningTime : Option Int
  sched : Sched
deriving DecidableEq

/-- Observable scheduling decisions recorded by the embedding:
* `start pid time` — a scheduler assigns a burst duration of process `pid` to
  `sim.runningTime` (sim.py lines 130, 138, 182);
* `stopRun time` — the engine resolves a burst completion and invokes
  `stopRunning` (sim.py lines 228-230);
* `dispatch etype pid time` — the engine dispatches a queued event to the
  scheduler (sim.py lines 234-238). -/
inductive Act where
  | start (pid : Nat) (time : Int)
  | stopRun (time : Int)
  | dispatch (etype : Nat) (pid : Nat) (time : Int)
deriving DecidableEq

instance {ε α : Type} [DecidableEq ε] [DecidableEq α] : DecidableEq (Except ε α) := fun a b =>
  match a, b with
  | Except.error x, Except.error y =>
    if h : x = y then isTrue (h ▸ rfl) else isFalse (fun c => by cases c; exact h rfl)
  | Except.ok x, Except.ok y =>
    if h : x = y then isTrue (h ▸ rfl) else isFalse (fun c => by cases c; exact h rfl)
  | Except.error _, Except.ok _ => isFalse (fun c => by cases c)
  | Except.ok _, Except.error _ => isFalse (fun c => by cases c)

/-- Result of a stateful step: trace emitted so far, and either the next state
or a raised exception (the trace survives the exception, as printed output
does in Python). -/
abbrev SimRes := List Act × Except String SimSt

/-- Sequencing of steps: on error the trace so far is kept. -/
def andThen (r : SimRes) (f : SimSt → SimRes) : SimRes :=
  match r with
  | (acts, Except.error e) => (acts, Except.error e)
  | (acts, Except.ok s) => ((acts ++ (f s).1), (f s).2)

/-- Prepend already-emitted actions to a step result. -/
def withActs (acts : List Act) (r : SimRes) : SimRes := (acts ++ r.1, r.2)

/-- Look up a process object by id in the simulation's store (models following
a Python object reference). -/
def lookupProc (procs : List Process) (pid : Nat) : Option Process :=
  procs.find? (fun p => p.pid == pid)

/-- `p.activities[0]` as an optional value: `none` models the `IndexError` /
`AttributeError` raised when the process is missing or has no activities. -/
def headActivity (procs : List Process) (pid : Nat) : Option Int :=
  (lookupProc procs pid).bind (fun p => p.activities.head?)

/-- Replace the activity list of the process `pid` in the store (models
mutating the shared `Process` object). -/
def setActivities (procs : List Process) (pid : Nat) (acts : List Int) : List Process :=
  procs.map (fun p => if p.pid = pid then { pid := p.pid, arrive := p.arrive, activities := acts } else p)

/-- Sort key default for the SPN ready-queue sort; only consulted when every
key exists (mirroring Python computing all keys before sorting). -/
def keyD (procs : List Process) (pid : Nat) : Int := (headActivity procs pid).getD 0

/-- Comparison used by `self.ready_queue.sort(key=lambda x: x.activities[0])`
(sim.py line 155). -/
def spnLe (procs : List Process) (a b : Nat) : Prop := keyD procs a ≤ keyD procs b

instance (procs : List Process) : DecidableRel (spnLe procs) := fun a b => by
  unfold spnLe; infer_instance

/-- `SPN_Scheduler.add_to_ready_queue` (sim.py lines 153-155): append, then
stable sort ascending by the first remaining activity. Python evaluates the
key of every element first; a missing process or empty activity list raises,
modelled by the error branch. -/
def spnAddReady (procs : List Process) (ready : List Nat) (pid : Nat) :
    Except String (List Nat) :=
  let ready' := ready ++ [pid]
  if ready'.all (fun q => (headActivity procs q).isSome) then
    Except.ok (List.insertionSort (spnLe procs) ready')
  else Except.error "AttributeError or IndexError computing sort key"

/-- `SPN_Scheduler.start_next_process` (sim.py lines 177-182): pop the ready
head and assign its popped first activity to `sim.runningTime`. -/
def spnStartNext (s : SimSt) : SimRes :=
  match s.sched with
  | Sched.spn ready =>
    match ready with
    | [] => ([], Except.ok s)
    | pid :: rest =>
      match lookupProc s.procs pid with
      | some p =>
        match p.activities with
        | a :: acts =>
          ([Act.start pid s.clock],
           Except.ok { s with sched := Sched.spn rest,
                              procs := setActivities s.procs pid acts,
                              runningTime := some a })
        | [] => ([], Except.error "IndexError: pop from empty list")
      | none => ([], Except.error "missing process in store")
  | Sched.fcfs _ => ([], Except.error "start_next_process on non-SPN scheduler")

/-- `arrive` of the active scheduler (sim.py lines 127-130 for FCFS, 163-166
for SPN). FCFS appends to the ready queue and, when the queue now has exactly
one element, assigns `p.activities[0]` to `sim.runningTime` — without
removing the process from the ready queue and without consuming the
activity. SPN inserts sorted and starts the head if the CPU is idle. -/
def schedArrive (s : SimSt) (pid : Nat) : SimRes :=
  match s.sched with
  | Sched.fcfs ready =>
    let ready' := ready ++ [pid]
    let s1 := { s with sched := Sched.fcfs ready' }
    if ready'.length = 1 then
      match headActivity s1.procs pid with
      | some a => ([Act.start pid s1.clock], Except.ok { s1 with runningTime := some a })
      | none => ([], Except.error "IndexError: activities is empty")
    else ([], Except.ok s1)
  | Sched.spn ready =>
    match spnAddReady s.procs ready pid with
    | Except.error e => ([], Except.error e)
    | Except.ok ready' =>
      let s1 := { s with sched := Sched.spn ready' }
      if s1.runningTime = none then spnStartNext s1 else ([], Except.ok s1)

/-- `unblock` of the active scheduler as actually invoked by
`Sim.processEvent` (sim.py lines 237-238): the engine passes `(self,
e.process)` positionally, but both concrete schedulers declare
`unblock(self, p, sim)`, so the engine is bound to the process parameter `p`
and the process to `sim`. FCFS's body is `pass` (nothing is admitted). SPN's
body calls `add_to_ready_queue(p)` with the `Sim` object, whose sort key
access `x.activities[0]` raises `AttributeError`. -/
def schedUnblock (s : SimSt) (_pid : Nat) : SimRes :=
  match s.sched with
  | Sched.fcfs _ => ([], Except.ok s)
  | Sched.spn _ =>
    ([], Except.error "AttributeError: Sim object has no attribute activities")

/-- `idle` of the active scheduler (sim.py lines 135-139 for FCFS, 173-175
for SPN). FCFS pops the ready head and assigns `p.activities[0]` to
`sim.runningTime` without consuming it; SPN starts the next process. -/
def schedIdle (s : SimSt) : SimRes :=
  match s.sched with
  | Sched.fcfs ready =>
    match ready with
    | [] => ([], Except.ok s)
    | pid :: rest =>
      match headActivity s.procs pid with
      | some a =>
        ([Act.start pid s.clock],
         Except.ok { s with sched := Sched.fcfs rest, runningTime := some a })
      | none => ([], Except.error "IndexError: activities is empty")
  | Sched.spn ready =>
    match ready with
    | [] => ([], Except.ok s)
    | _ :: _ => spnStartNext s

/-- `stopRunning` of the active scheduler (sim.py lines 124-125 for FCFS —
`pass` — and 160-161 for SPN — `sim.runningTime = None`). -/
def schedStopRunning (s : SimSt) : List Act × SimSt :=
  match s.sched with
  | Sched.fcfs _ => ([], s)
  | Sched.spn _ => ([], { s with runningTime := none })

/-- `Sim.handleTimeDone` (sim.py lines 222-232): if a process is running and
its remaining time is at most `move`, advance the clock by the remaining
time, clear `runningTime`, invoke `stopRunning`, and report handled. -/
def handleTimeDone (s : SimSt) (move : Option Int) : Bool × List Act × SimSt :=
  match move with
  | none => (false, [], s)
  | some m =>
    match s.runningTime with
    | some rt =>
      if rt ≤ m then
        let s1 := { s with clock := s.clock + rt, runningTime := none }
        let r := schedStopRunning s1
        (true, Act.stopRun s1.clock :: r.1, r.2)
      else (false, [], s)
    | none => (false, [], s)

/-- `Sim.processEvent` (sim.py lines 234-238): dispatch to `arrive` or
`unblock` by event kind. -/
def processEvent (s : SimSt) (e : Event) : SimRes :=
  if e.etype = ARRIVAL then
    withActs [Act.dispatch ARRIVAL e.pid e.time] (schedArrive s e.pid)
  else
    withActs [Act.dispatch UNBLOCK e.pid e.time] (schedUnblock s e.pid)

/-- `Sim.getTimeForward` (sim.py lines 214-220): delta to the earliest queued
event if any (the `peek` may sort the backing list, threaded through the
returned state), else the remaining running time, else `none`. -/
def getTimeForward (s : SimSt) : Except String (Option Int × SimSt) :=
  if s.events.hasEvent then
    match s.events.peekE with
    | Except.ok (e, q') => Except.ok (some (e.time - s.clock), { s with events := q' })
    | Except.error err => Except.error err
  else
    match s.runningTime with
    | some rt => Except.ok (some rt, s)
    | none => Except.ok (none, s)

/-- The inner completion loop of `Sim.run` (sim.py lines 200-202):
`move = getTimeForward(); while move is not None and handleTimeDone(move):
move = getTimeForward()`. -/
def innerCompletions : Nat → SimSt → SimRes
  | 0, _ => ([], Except.error "out of fuel")
  | n + 1, s =>
    match getTimeForward s with
    | Except.error e => ([], Except.error e)
    | Except.ok (none, s') => ([], Except.ok s')
    | Except.ok (some m, s') =>
      match handleTimeDone s' (some m) with
      | (true, acts, s'') => withActs acts (innerCompletions n s'')
      | (false, acts, s'') => (acts, Except.ok s'')

/-- The not-handled branch of `Sim.run` (sim.py lines 204-207): decrement
`runningTime` by `move` if running, advance the clock to the earliest queued
event's time, pop it and dispatch it. -/
def dispatchStep (s : SimSt) (move : Int) : SimRes :=
  let s1 := match s.runningTime with
            | some rt => { s with runningTime := some (rt - move) }
            | none => s
  match s1.events.peekE with
  | Except.error e => ([], Except.error e)
  | Except.ok (e, q1) =>
    let s2 := { s1 with clock := e.time, events := q1 }
    match s2.events.popE with
    | Except.error err => ([], Except.error err)
    | Except.ok (e2, q2) => processEvent { s2 with events := q2 } e2

/-- The same-instant drain loop of `Sim.run` (sim.py lines 208-209):
`while events.hasEvent() and events.peek().time == clock:
processEvent(events.pop())`. -/
def drainLoop : Nat → SimSt → SimRes
  | 0, _ => ([], Except.error "out of fuel")
  | n + 1, s =>
    if s.events.hasEvent then
      match s.events.peekE with
      | Except.error e => ([], Except.error e)
      | Except.ok (e, q1) =>
        if e.time = s.clock then
          match q1.popE with
          | Except.error err => ([], Except.error err)
          | Except.ok (e2, q2) =>
            andThen (processEvent { s with events := q2 } e2) (fun s' => drainLoop n s')
        else ([], Except.ok { s with events := q1 })
    else ([], Except.ok s)

/-- `if self.runningTime is None: self.sched.idle(self)` (sim.py lines
210-211). -/
def idleStep (s : SimSt) : SimRes :=
  if s.runningTime = none then schedIdle s else ([], Except.ok s)

/-- One iteration of the outer loop body of `Sim.run` (sim.py lines
199-211), given the `move` computed by `getTimeForward`. -/
def outerBody (fuel : Nat) (s : SimSt) (move : Int) : SimRes :=
  match handleTimeDone s (some move) with
  | (true, acts1, s1) =>
    andThen (withActs acts1 (innerCompletions fuel s1)) (fun s2 =>
      andThen (drainLoop (s2.events.queue.length + 1) s2) idleStep)
  | (false, _, _) =>
    andThen (dispatchStep s move) (fun s2 =>
      andThen (drainLoop (s2.events.queue.length + 1) s2) idleStep)

/-- The outer loop of `Sim.run` (sim.py lines 197-212): while
`getTimeForward()` is not `none`, run the body. -/
def runLoop : Nat → SimSt → SimRes
  | 0, _ => ([], Except.error "out of fuel")
  | n + 1, s =>
    match getTimeForward s with
    | Except.error e => ([], Except.error e)
    | Except.ok (none, s') => ([], Except.ok s')
    | Except.ok (some m, s') => andThen (outerBody (n + 1) s' m) (fun s'' => runLoop n s'')

/-- `Sim.addArrival` (sim.py lines 240-241). -/
def addArrival (s : SimSt) (p : Process) : SimSt :=
  { s with events := s.events.push { etype := ARRIVAL, pid := p.pid, time := p.arrive } }

/-- `Sim.addUnblockEvent` (sim.py lines 243-244). -/
def addUnblockEvent (s : SimSt) (p : Process) (t : Int) : SimSt :=
  { s with events := s.events.push { etype := UNBLOCK, pid := p.pid, time := s.clock + t } }

/-- `initialize` of both schedulers (sim.py lines 117-119 and 149-151): push
an arrival event for every process of the workload. -/
def initializeSim (s : SimSt) : SimSt :=
  s.procs.foldl addArrival s

/-- `Sim.run` (sim.py lines 195-212): initialize, then loop. -/
def runSim (fuel : Nat) (s : SimSt) : SimRes :=
  runLoop fuel (initializeSim s)

/-- `Sim.__init__` (sim.py lines 188-193). -/
def initSim (procs : List Process) (sched : Sched) : SimSt :=
  { clock := 0, procs := procs, events := { queue := [], dirty := false },
    runningTime := none, sched := sched }

/-- Build the process store from a workload of (arrival time, activity list)
pairs; ids are assigned by input order as in `Sim.parseProcessFile`
(sim.py line 264). -/
def mkProcsFrom (i : Nat) : List (Int × List Int) → List Process
  | [] => []
  | x :: rest => { pid := i, arrive := x.1, activities := x.2 } :: mkProcsFrom (i + 1) rest

def mkProcs (w : List (Int × List Int)) : List Process := mkProcsFrom 0 w

/-- Whether a run result completed without raising. -/
def resOk (r : SimRes) : Bool :=
  match r.2 with
  | Except.ok _ => true
  | Except.error _ => false

/-- The final process store of a completed run. -/
def finalProcs (r : SimRes) : Option (List Process) :=
  match r.2 with
  | Except.ok s => some s.procs
  | Except.error _ => none

/-- Number of `start` decisions for process `pid` in a trace. -/
def countStarts (tr : List Act) (pid : Nat) : Nat :=
  (tr.filter (fun a => match a with
    | Act.start p _ => decide (p = pid)
    | _ => false)).length

/-- The FCFS example workload of the spec: P0 = (arrive 0, bursts [5]),
P1 = (arrive 2, bursts [3]). -/
def workloadC3 : List Process := mkProcs [(0, [5]), (2, [3])]

/-- The SPN example workload of the spec: P0 = (arrive 0, bursts [8]),
P1 = (arrive 1, bursts [4]). -/
def workloadC4 : List Process := mkProcs [(0, [8]), (1, [4])]

/-- Claim C3: evaluating `Sim.run` under FCFS on the example workload. The
code produces the decision sequence: P0 starts at 0, its burst completes at
5, then `idle` starts P0 a second time (FCFS `arrive` never removed it from
the ready queue nor consumed its burst), completing at 10; P1 starts at 10
and completes at 13. The claimed sequence (P1 starting at 5 and finishing at
8) is not produced. -/
theorem fcfs_example_trace_bug :
    (runSim 10 (initSim workloadC3 (Sched.fcfs []))).1 =
      [Act.dispatch ARRIVAL 0 0, Act.start 0 0, Act.dispatch ARRIVAL 1 2,
       Act.stopRun 5, Act.start 0 5, Act.stopRun 10, Act.start 1 10, Act.stopRun 13]
    ∧ resOk (runSim 10 (initSim workloadC3 (Sched.fcfs []))) = true
    ∧ (runSim 10 (initSim workloadC3 (Sched.fcfs []))).1 ≠
      [Act.dispatch ARRIVAL 0 0, Act.start 0 0, Act.dispatch ARRIVAL 1 2,
       Act.stopRun 5, Act.start 1 5, Act.stopRun 8] := by decide

/-- Claim C4: `Sim.run` under SPN on the example workload completes and
produces exactly: P0 starts at time 0; P1 arrives at time 1 without any
preemption (no start occurs between times 0 and 8); the running burst
completes at 8; P1 starts at 8; its burst completes at 12. -/
theorem spn_example_trace :
    (runSim 10 (initSim workloadC4 (Sched.spn []))).1 =
      [Act.dispatch ARRIVAL 0 0, Act.start 0 0, Act.dispatch ARRIVAL 1 1,
       Act.stopRun 8, Act.start 1 8, Act.stopRun 12]
    ∧ resOk (runSim 10 (initSim workloadC4 (Sched.spn []))) = true := by decide

/-- Claim C5: under FCFS, starts do not consume bursts. On the FCFS example
workload the run performs three `start` decisions (P0 twice, P1 once), yet
the final store still holds every original burst: nothing was ever removed
from any burst sequence, so the sum of durations consumed by removal is 0,
not the sum of the input bursts. -/
theorem fcfs_starts_do_not_consume_bursts :
    countStarts (runSim 10 (initSim workloadC3 (Sched.fcfs []))).1 0 = 2
    ∧ countStarts (runSim 10 (initSim workloadC3 (Sched.fcfs []))).1 1 = 1
    ∧ finalProcs (runSim 10 (initSim workloadC3 (Sched.fcfs []))) = some workloadC3 := by decide

/-- Dynamic Python values relevant to the `unblock` callback: a `Sim` object
(carrying the attribute `runningTime` that the callback body reads) or a
`Process` object (carrying `activities`). -/
inductive PyObj where
  | simO (runningTime : Option Int)
  | procO (pid : Nat) (activities : List Int)
deriving DecidableEq

/-- `x.activities[0]` on a dynamic value: an `AttributeError` on a `Sim`
object, an `IndexError` on an exhausted process. -/
def pyHeadActivity : PyObj → Except String Int
  | PyObj.procO _ (a :: _) => Except.ok a
  | PyObj.procO _ [] => Except.error "IndexError: list index out of range"
  | PyObj.simO _ => Except.error "AttributeError: Sim object has no attribute activities"

/-- Sort key default for the dynamic ready-queue sort; consulted only when
every key exists. -/
def pyKeyD (x : PyObj) : Int :=
  match pyHeadActivity x with
  | Except.ok a => a
  | Except.error _ => 0

/-- The dynamic sort comparison of `add_to_ready_queue`. -/
def pyLe (a b : PyObj) : Prop := pyKeyD a ≤ pyKeyD b

instance : DecidableRel pyLe := fun a b => by unfold pyLe; infer_instance

/-- `SPN_Scheduler.add_to_ready_queue` (sim.py lines 153-155) over dynamic
values: append, compute every sort key (raising if any fails), stable sort. -/
def dynAddToReady (ready : List PyObj) (p : PyObj) : Except String (List PyObj) :=
  let ready' := ready ++ [p]
  if ready'.all (fun x => match pyHeadActivity x with
      | Except.ok _ => true
      | Except.error _ => false) then
    Except.ok (List.insertionSort pyLe ready')
  else Except.error "AttributeError: Sim object has no attribute activities"

/-- `x.runningTime` on a dynamic value. -/
def pyRunningTime : PyObj → Except String (Option Int)
  | PyObj.simO rt => Except.ok rt
  | PyObj.procO _ _ => Except.error "AttributeError: Process object has no attribute runningTime"

/-- `SPN_Scheduler.unblock(self, p, sim)` (sim.py lines 168-171) over dynamic
values, followed by `start_next_process` (lines 177-182) when
`sim.runningTime` is `None`. Returns the new ready queue together with the
`(pid, burst)` that was started, if any. -/
def spnUnblockDyn (ready : List PyObj) (p simArg : PyObj) :
    Except String (List PyObj × Option (Nat × Int)) :=
  match dynAddToReady ready p with
  | Except.error e => Except.error e
  | Except.ok ready' =>
    match pyRunningTime simArg with
    | Except.error e => Except.error e
    | Except.ok rt =>
      if rt = none then
        match ready' with
        | [] => Except.ok (ready', none)
        | x :: rest =>
          match x with
          | PyObj.procO pid (a :: _) => Except.ok (rest, some (pid, a))
          | PyObj.procO _ [] => Except.error "IndexError: pop from empty list"
          | PyObj.simO _ => Except.error "AttributeError: Sim object has no attribute activities"
      else Except.ok (ready', none)

/-- An idle SPN simulation state holding one process (id 1, one remaining
burst of 4) that is about to be unblocked. -/
def unblockSpnState : SimSt :=
  { clock := 3, procs := [{ pid := 1, arrive := 1, activities := [4] }],
    events := { queue := [], dirty := false }, runningTime := none,
    sched := Sched.spn [] }

/-- The same situation under FCFS. -/
def unblockFcfsState : SimSt :=
  { clock := 3, procs := [{ pid := 1, arrive := 1, activities := [4] }],
    events := { queue := [], dirty := false }, runningTime := none,
    sched := Sched.fcfs [] }

/-- Claim C6: dispatching an UNBLOCK event does not behave like `arrive`.
`Sim.processEvent` passes `(self, e.process)` positionally, but the concrete
schedulers declare `unblock(self, p, sim)`, so the `Sim` is bound to the
process parameter. Under SPN the dispatch raises an `AttributeError` instead
of admitting the process; under FCFS the `pass` body leaves the state
untouched (the process is never admitted, the idle CPU never started). The
dynamic model shows the cause: invoked with the engine first (as the engine
does) the callback raises, while with the intended (process, engine)
correspondence it admits and starts the process. -/
theorem unblock_dispatch_argument_swap_bug :
    processEvent unblockSpnState { etype := UNBLOCK, pid := 1, time := 3 } =
      ([Act.dispatch UNBLOCK 1 3],
       Except.error "AttributeError: Sim object has no attribute activities")
    ∧ processEvent unblockFcfsState { etype := UNBLOCK, pid := 1, time := 3 } =
      ([Act.dispatch UNBLOCK 1 3], Except.ok unblockFcfsState)
    ∧ spnUnblockDyn [] (PyObj.simO none) (PyObj.procO 1 [4]) =
      Except.error "AttributeError: Sim object has no attribute activities"
    ∧ spnUnblockDyn [] (PyObj.procO 1 [4]) (PyObj.simO none) =
      Except.ok ([], some (1, 4)) := by decide

/-- A state in which a process with remaining time 3 is running under FCFS
(whose `stopRunning` body is `pass`). -/
def c7State : SimSt :=
  { clock := 4, procs := workloadC3, events := { queue := [], dirty := false },
    runningTime := some 3, sched := Sched.fcfs [0, 1] }

/-- Claim C7 counterexample: FCFS's `stopRunning` leaves the state untouched
(it does not clear `runningTime`), yet after the burst completion
`handleTimeDone` has set `runningTime` to none — the engine cleared it
itself (sim.py line 229), so `runningTime` does not remain set. -/
theorem engine_resets_runningTime_counterexample :
    schedStopRunning c7State = ([], c7State)
    ∧ (handleTimeDone c7State (some 3)).1 = true
    ∧ (handleTimeDone c7State (some 3)).2.2.runningTime = none := by decide

/-- Claim C7 amended: when a running burst fully elapses, `handleTimeDone`
itself resets `runningTime` to none (and advances the clock by exactly the
remaining time) before invoking `stopRunning`; `runningTime` ends none
regardless of whether the scheduler's `stopRunning` clears it. -/
theorem engine_resets_runningTime (s : SimSt) (r m : Int)
    (h1 : s.runningTime = some r) (h2 : r ≤ m) :
    (handleTimeDone s (some m)).1 = true
    ∧ (handleTimeDone s (some m)).2.2.runningTime = none
    ∧ (handleTimeDone s (some m)).2.2.clock = s.clock + r := by
  simp only [handleTimeDone, h1, if_pos h2]
  cases h : s.sched <;> simp [schedStopRunning, h]

/-- Witness for the amended claim C7 at the concrete state `c7State`. -/
theorem engine_resets_runningTime_witness :
    c7State.runningTime = some 3 ∧ (3 : Int) ≤ 3
    ∧ ((handleTimeDone c7State (some 3)).1 = true
       ∧ (handleTimeDone c7State (some 3)).2.2.runningTime = none
       ∧ (handleTimeDone c7State (some 3)).2.2.clock = c7State.clock + 3) :=
  ⟨rfl, by decide, engine_resets_runningTime c7State 3 3 rfl (by decide)⟩

/-- Claim C10: `addUnblockEvent` pushes exactly one UNBLOCK event for `p` due
at `clock + t`, `addArrival` pushes exactly one ARRIVAL event for `p` due at
`p.arrive`; neither changes the clock, the running time, or any process's
burst sequence. -/
theorem add_events_effects (s : SimSt) (p : Process) (t : Int) (_ht : 0 ≤ t) :
    (addUnblockEvent s p t).events.queue =
      s.events.queue ++ [{ etype := UNBLOCK, pid := p.pid, time := s.clock + t }]
    ∧ (addUnblockEvent s p t).clock = s.clock
    ∧ (addUnblockEvent s p t).runningTime = s.runningTime
    ∧ (addUnblockEvent s p t).procs = s.procs
    ∧ (addArrival s p).events.queue =
      s.events.queue ++ [{ etype := ARRIVAL, pid := p.pid, time := p.arrive }]
    ∧ (addArrival s p).clock = s.clock
    ∧ (addArrival s p).runningTime = s.runningTime
    ∧ (addArrival s p).procs = s.procs :=
  ⟨rfl, rfl, rfl, rfl, rfl, rfl, rfl, rfl⟩

/-- Witness for claim C10 at a concrete state, process and delay. -/
theorem add_events_effects_witness :
    (0 : Int) ≤ 2
    ∧ ((addUnblockEvent unblockFcfsState { pid := 1, arrive := 1, activities := [4] } 2).events.queue =
        unblockFcfsState.events.queue ++ [{ etype := UNBLOCK, pid := 1, time := unblockFcfsState.clock + 2 }]
       ∧ (addUnblockEvent unblockFcfsState { pid := 1, arrive := 1, activities := [4] } 2).clock = unblockFcfsState.clock
       ∧ (addUnblockEvent unblockFcfsState { pid := 1, arrive := 1, activities := [4] } 2).runningTime = unblockFcfsState.runningTime
       ∧ (addUnblockEvent unblockFcfsState { pid := 1, arrive := 1, activities := [4] } 2).procs = unblockFcfsState.procs
       ∧ (addArrival unblockFcfsState { pid := 1, arrive := 1, activities := [4] }).events.queue =
        unblockFcfsState.events.queue ++ [{ etype := ARRIVAL, pid := 1, time := (1 : Int) }]
       ∧ (addArrival unblockFcfsState { pid := 1, arrive := 1, activities := [4] }).clock = unblockFcfsState.clock
       ∧ (addArrival unblockFcfsState { pid := 1, arrive := 1, activities := [4] }).runningTime = unblockFcfsState.runningTime
       ∧ (addArrival unblockFcfsState { pid := 1, arrive := 1, activities := [4] }).procs = unblockFcfsState.procs) :=
  ⟨by decide, add_events_effects unblockFcfsState { pid := 1, arrive := 1, activities := [4] } 2 (by decide)⟩

/-- Characterization of `Event.__lt__` as a lexicographic comparison. -/
theorem evLt_true_iff (a b : Event) : evLt a b = true ↔
    (a.time < b.time ∨ (a.time = b.time ∧ (a.etype < b.etype
      ∨ (a.etype = b.etype ∧ a.pid < b.pid)))) := by
  unfold evLt
  by_cases h1 : a.time = b.time
  · by_cases h2 : a.etype = b.etype
    · simp [h1, h2]
    · simp [h1, h2]
      try omega
  · simp [h1]
    try omega

/-- Characterization of the complemented comparison. -/
theorem evLt_false_iff (a b : Event) : evLt a b = false ↔
    ¬ (a.time < b.time ∨ (a.time = b.time ∧ (a.etype < b.etype
      ∨ (a.etype = b.etype ∧ a.pid < b.pid)))) := by
  rw [← evLt_true_iff]
  cases evLt a b <;> simp

theorem evLt_irrefl (a : Event) : evLt a a = false := by
  rw [evLt_false_iff]; omega

instance : IsTotal Event evGe :=
  ⟨fun a b => by
    unfold evGe
    cases hab : evLt a b with
    | false => exact Or.inl rfl
    | true =>
      cases hba : evLt b a with
      | false => exact Or.inr rfl
      | true =>
        have h1 := (evLt_true_iff a b).mp hab
        have h2 := (evLt_true_iff b a).mp hba
        exact absurd h1 (by omega)⟩

instance : IsTrans Event evGe :=
  ⟨fun a b c h1 h2 => by
    unfold evGe at h1 h2 ⊢
    rw [evLt_false_iff] at h1 h2 ⊢
    omega⟩

/-- The descending sort is a permutation of its input. -/
theorem sortDesc_perm (l : List Event) : List.Perm (sortDesc l) l :=
  List.perm_insertionSort evGe l

/-- The descending sort is pairwise non-ascending. -/
theorem sortDesc_pairwise (l : List Event) : (sortDesc l).Pairwise evGe :=
  List.sorted_insertionSort evGe l

/-- Reachability invariant of an `EventQueue`: a clean queue is sorted in
descending event order (the earliest event last, at the retrievable end). -/
def QInv (q : EventQueue) : Prop := q.dirty = false → q.queue.Pairwise evGe

instance (q : EventQueue) : Decidable (QInv q) := by
  unfold QInv; infer_instance

theorem prepare_queue_perm (q : EventQueue) : List.Perm (q.prepare).queue q.queue := by
  unfold EventQueue.prepare
  split
  · exact sortDesc_perm q.queue
  · exact List.Perm.refl _

theorem prepare_dirty_false (q : EventQueue) (h : QInv q ∨ q.dirty = true) :
    (q.prepare).dirty = false := by
  unfold EventQueue.prepare
  split
  · rfl
  · rename_i hd
    rcases h with _ | h
    · exact Bool.eq_false_iff.mpr hd
    · exact absurd h hd

theorem prepare_pairwise (q : EventQueue) (hQ : QInv q) :
    (q.prepare).queue.Pairwise evGe := by
  unfold EventQueue.prepare
  split
  · exact sortDesc_pairwise q.queue
  · rename_i hd
    exact hQ (Bool.eq_false_iff.mpr hd)

theorem prepare_queue_ne_nil (q : EventQueue) (h : q.queue ≠ []) :
    (q.prepare).queue ≠ [] := by
  intro hc
  have hp := prepare_queue_perm q
  rw [hc] at hp
  exact h (List.Perm.eq_nil hp.symm)

theorem peekE_eq (q : EventQueue) (h : q.queue ≠ []) :
    q.peekE = Except.ok ((q.prepare).queue.getLast (prepare_queue_ne_nil q h), q.prepare) := by
  unfold EventQueue.peekE
  rw [if_neg h, List.getLast?_eq_getLast_of_ne_nil (prepare_queue_ne_nil q h)]

theorem popE_eq (q : EventQueue) (h : q.queue ≠ []) :
    q.popE = Except.ok ((q.prepare).queue.getLast (prepare_queue_ne_nil q h),
      { queue := (q.prepare).queue.dropLast, dirty := false }) := by
  unfold EventQueue.popE
  rw [if_neg h, List.getLast?_eq_getLast_of_ne_nil (prepare_queue_ne_nil q h)]

theorem pairwise_all_evGe_getLast {l : List Event} (hp : l.Pairwise evGe) (h : l ≠ []) :
    ∀ x ∈ l, evGe x (l.getLast h) := by
  intro x hx
  have hsplit := List.dropLast_append_getLast h
  rw [← hsplit] at hp hx
  rcases List.mem_append.mp hx with hx1 | hx2
  · exact (List.pairwise_append.mp hp).2.2 x hx1 _ (List.mem_singleton.mpr rfl)
  · rw [List.mem_singleton.mp hx2]
    exact evLt_irrefl _

/-- Full specification of a successful `pop`: the returned event is minimal
(in the `Event.__lt__` order) among the queue contents, it was a member of
the queue, the remaining queue is clean and sorted, and nothing else was
added or removed. -/
theorem popE_spec (q : EventQueue) (hQ : QInv q) {e : Event} {q' : EventQueue}
    (h : q.popE = Except.ok (e, q')) :
    (∀ x ∈ q'.queue, evGe x e) ∧ (∀ x ∈ q.queue, evGe x e) ∧ e ∈ q.queue
    ∧ QInv q' ∧ List.Perm (q'.queue ++ [e]) q.queue := by
  by_cases hne : q.queue = []
  · unfold EventQueue.popE at h
    rw [if_pos hne] at h
    cases h
  · rw [popE_eq q hne] at h
    injection h with h2
    obtain ⟨he, hq⟩ := Prod.mk.injEq .. |>.mp h2
    have hpne := prepare_queue_ne_nil q hne
    have hpw := prepare_pairwise q hQ
    have hmin := pairwise_all_evGe_getLast hpw hpne
    have hsplit := List.dropLast_append_getLast hpne
    have hqq : q'.queue = (q.prepare).queue.dropLast := by rw [← hq]
    have hperm : List.Perm (q'.queue ++ [e]) q.queue := by
      rw [hqq, ← he, hsplit]
      exact prepare_queue_perm q
    refine ⟨?_, ?_, ?_, ?_, hperm⟩
    · intro x hx
      rw [← he]
      exact hmin x (List.Sublist.subset (List.dropLast_sublist _) (hqq ▸ hx))
    · intro x hx
      rw [← he]
      exact hmin x ((prepare_queue_perm q).mem_iff.mpr hx)
    · rw [← he]
      exact (prepare_queue_perm q).subset (List.getLast_mem hpne)
    · intro _
      rw [hqq]
      exact hpw.sublist (List.dropLast_sublist _)

theorem push_QInv (q : EventQueue) (e : Event) : QInv (q.push e) := by
  intro h
  cases h

/-- A sequence of pushes (`EventQueue.push` folded over a list). -/
def pushAll (q : EventQueue) (l : List Event) : EventQueue :=
  l.foldl EventQueue.push q

theorem pushAll_queue (q : EventQueue) (l : List Event) :
    (pushAll q l).queue = q.queue ++ l := by
  induction l generalizing q with
  | nil => simp [pushAll]
  | cons e rest ih =>
    show (pushAll (q.push e) rest).queue = _
    rw [ih]
    simp [EventQueue.push]

theorem pushAll_QInv (q : EventQueue) (l : List Event) (hQ : QInv q) :
    QInv (pushAll q l) := by
  induction l generalizing q with
  | nil => exact hQ
  | cons e rest ih => exact ih (q.push e) (push_QInv q e)

/-- Claim C2: the EventQueue ordering law. The empty queue satisfies the
reachability invariant `QInv` (a clean queue is sorted descending), `push`
and `pop` preserve it, and under it: every successful `pop` returns an event
that is not greater (in the (time, kind, pid) lexicographic order of
`Event.__lt__`) than any event that was in the queue, and for two successive
pops with arbitrary pushes between them, none of which pushes an event
smaller than the first popped event, the second popped event is not smaller
than the first — the pop sequence is non-decreasing. -/
theorem eventQueue_pop_ordering :
    QInv { queue := [], dirty := false }
    ∧ (∀ (q : EventQueue) (e : Event), QInv q → QInv (q.push e))
    ∧ (∀ (q : EventQueue) (e : Event) (q' : EventQueue),
        QInv q → q.popE = Except.ok (e, q') → QInv q')
    ∧ (∀ (q : EventQueue) (e : Event) (q' : EventQueue),
        QInv q → q.popE = Except.ok (e, q') → ∀ x ∈ q.queue, evGe x e)
    ∧ (∀ (q : EventQueue) (e1 : Event) (q1 : EventQueue) (l : List Event)
        (e2 : Event) (q2 : EventQueue),
        QInv q → q.popE = Except.ok (e1, q1) → (∀ x ∈ l, evGe x e1) →
        (pushAll q1 l).popE = Except.ok (e2, q2) → evGe e2 e1) := by
  refine ⟨fun _ => List.Pairwise.nil, fun q e _ => push_QInv q e, ?_, ?_, ?_⟩
  · intro q e q' hQ h
    exact (popE_spec q hQ h).2.2.2.1
  · intro q e q' hQ h
    exact (popE_spec q hQ h).2.1
  · intro q e1 q1 l e2 q2 hQ h1 hl h2
    have hs1 := popE_spec q hQ h1
    have hQ2 := pushAll_QInv q1 l hs1.2.2.2.1
    have hs2 := popE_spec (pushAll q1 l) hQ2 h2
    have hmem : e2 ∈ q1.queue ++ l := by
      rw [← pushAll_queue q1 l]
      exact hs2.2.2.1
    rcases List.mem_append.mp hmem with hm | hm
    · exact hs1.1 e2 hm
    · exact hl e2 hm

/-- Concrete events for the ordering-law witness. -/
def evA : Event := { etype := 0, pid := 1, time := 5 }

def evB : Event := { etype := 0, pid := 0, time := 2 }

def evC : Event := { etype := 1, pid := 0, time := 2 }

def evD : Event := { etype := 0, pid := 3, time := 7 }

/-- Witness for claim C2: three pushed events, a pop returning the least
(`evB`, an ARRIVAL at time 2 beating the same-time UNBLOCK `evC`), a push of
a larger event, and a second pop returning `evC`, not smaller than `evB`. -/
theorem eventQueue_pop_ordering_witness :
    QInv (pushAll { queue := [], dirty := false } [evA, evB, evC])
    ∧ (pushAll { queue := [], dirty := false } [evA, evB, evC]).popE
        = Except.ok (evB, { queue := [evA, evC], dirty := false })
    ∧ (∀ x ∈ [evD], evGe x evB)
    ∧ (pushAll { queue := [evA, evC], dirty := false } [evD]).popE
        = Except.ok (evC, { queue := [evD, evA], dirty := false })
    ∧ evGe evC evB :=
  ⟨by decide, by decide, by decide, by decide,
   eventQueue_pop_ordering.2.2.2.2
     (pushAll { queue := [], dirty := false } [evA, evB, evC])
     evB { queue := [evA, evC], dirty := false } [evD]
     evC { queue := [evD, evA], dirty := false }
     (by decide) (by decide) (by decide) (by decide)⟩

/-- Claim C8: `pop` and `peek` on an empty EventQueue fail with the
empty-queue error (sim.py lines 54-55); on a non-empty queue both first
ensure the backing list is ordered — sorting exactly when the dirty flag is
set and then clearing it, leaving a clean queue untouched — and then return
(resp. remove) the element at the earliest end, which under the reachability
invariant is minimal in the event order. -/
theorem eventQueue_empty_error_and_prepare :
    (∀ q : EventQueue, q.queue = [] →
       q.popE = Except.error "Pop on empty EventQueue"
       ∧ q.peekE = Except.error "Peek on empty EventQueue")
    ∧ (∀ q : EventQueue, q.queue ≠ [] →
       ∃ e, (q.prepare).queue.getLast? = some e
         ∧ q.peekE = Except.ok (e, q.prepare)
         ∧ q.popE = Except.ok (e, { queue := (q.prepare).queue.dropLast, dirty := false })
         ∧ (q.dirty = false → q.prepare = q)
         ∧ (q.dirty = true → q.prepare = { queue := sortDesc q.queue, dirty := false })
         ∧ (QInv q → ∀ x ∈ q.queue, evGe x e)) := by
  constructor
  · intro q h
    constructor
    · unfold EventQueue.popE
      rw [if_pos h]
    · unfold EventQueue.peekE
      rw [if_pos h]
  · intro q h
    refine ⟨(q.prepare).queue.getLast (prepare_queue_ne_nil q h),
      List.getLast?_eq_getLast_of_ne_nil _, peekE_eq q h, popE_eq q h, ?_, ?_, ?_⟩
    · intro hd
      unfold EventQueue.prepare
      rw [if_neg (by rw [hd]; exact Bool.false_ne_true)]
    · intro hd
      unfold EventQueue.prepare
      rw [if_pos hd]
    · intro hQ
      exact (popE_spec q hQ (popE_eq q h)).2.1

/-- Witness for claim C8 at a dirty two-event queue and at an empty queue. -/
theorem eventQueue_empty_error_and_prepare_witness :
    (({ queue := [], dirty := true } : EventQueue).queue = []
      ∧ (({ queue := [], dirty := true } : EventQueue).popE = Except.error "Pop on empty EventQueue"
         ∧ ({ queue := [], dirty := true } : EventQueue).peekE = Except.error "Peek on empty EventQueue"))
    ∧ (({ queue := [evA, evB], dirty := true } : EventQueue).queue ≠ []
      ∧ ∃ e, (({ queue := [evA, evB], dirty := true } : EventQueue).prepare).queue.getLast? = some e
         ∧ ({ queue := [evA, evB], dirty := true } : EventQueue).peekE
             = Except.ok (e, ({ queue := [evA, evB], dirty := true } : EventQueue).prepare)
         ∧ ({ queue := [evA, evB], dirty := true } : EventQueue).popE
             = Except.ok (e, { queue := (({ queue := [evA, evB], dirty := true } : EventQueue).prepare).queue.dropLast, dirty := false })
         ∧ (({ queue := [evA, evB], dirty := true } : EventQueue).dirty = false
             → ({ queue := [evA, evB], dirty := true } : EventQueue).prepare = { queue := [evA, evB], dirty := true })
         ∧ (({ queue := [evA, evB], dirty := true } : EventQueue).dirty = true
             → ({ queue := [evA, evB], dirty := true } : EventQueue).prepare = { queue := sortDesc [evA, evB], dirty := false })
         ∧ (QInv { queue := [evA, evB], dirty := true }
             → ∀ x ∈ ({ queue := [evA, evB], dirty := true } : EventQueue).queue, evGe x e)) :=
  ⟨⟨rfl, eventQueue_empty_error_and_prepare.1 { queue := [], dirty := true } rfl⟩,
   ⟨by decide, eventQueue_empty_error_and_prepare.2 { queue := [evA, evB], dirty := true } (by decide)⟩⟩

theorem andThen_fst (r : SimRes) (f : SimSt → SimRes) :
    ∃ rest, (andThen r f).1 = r.1 ++ rest := by
  rcases r with ⟨acts, st⟩
  cases st with
  | error e => exact ⟨[], by simp [andThen]⟩
  | ok s => exact ⟨(f s).1, by simp [andThen]⟩

theorem getTimeForward_fields (s : SimSt) {m : Option Int} {s1 : SimSt}
    (h : getTimeForward s = Except.ok (m, s1)) :
    s1.runningTime = s.runningTime ∧ s1.clock = s.clock := by
  unfold getTimeForward at h
  split at h
  · cases hpk : s.events.peekE with
    | error e => rw [hpk] at h; cases h
    | ok p =>
      rw [hpk] at h
      obtain ⟨e, q'⟩ := p
      injection h with h2
      injection h2 with hm hs
      rw [← hs]
      exact ⟨rfl, rfl⟩
  · cases hrt : s.runningTime with
    | some rt =>
      rw [hrt] at h
      injection h with h2
      injection h2 with hm hs
      rw [← hs]
      exact ⟨hrt, rfl⟩
    | none =>
      rw [hrt] at h
      injection h with h2
      injection h2 with hm hs
      rw [← hs]
      exact ⟨hrt, rfl⟩

/-- A handled burst completion: `handleTimeDone` advances the clock by the
remaining time, clears `runningTime`, emits the completion and leaves
everything else untouched (both schedulers' `stopRunning` bodies leave the
resulting state unchanged). -/
theorem handleTimeDone_handled (s : SimSt) (r m : Int)
    (h1 : s.runningTime = some r) (h2 : r ≤ m) :
    handleTimeDone s (some m)
      = (true, [Act.stopRun (s.clock + r)],
         { s with clock := s.clock + r, runningTime := none }) := by
  simp only [handleTimeDone, h1]
  rw [if_pos h2]
  cases hsch : s.sched with
  | fcfs ready => simp [schedStopRunning, hsch]
  | spn ready => simp [schedStopRunning, hsch]

/-- Claim C1: during `Sim.run`, when a process is running with remaining time
`r` and `getTimeForward` yields the delta `d` to the earliest queued event
with `r ≤ d`, the iteration resolves the completion first: its trace begins
with the `stopRun` decision stamped `clock + r` (so `stopRunning` is invoked
before any event dispatch of the iteration, and the clock advances by
exactly `r`, not by `d`), and every dispatch in the iteration's trace occurs
strictly after it. -/
theorem completion_resolved_before_event_dispatch
    (fuel : Nat) (s s1 : SimSt) (d r : Int)
    (_h0 : s.events.hasEvent = true)
    (h1 : getTimeForward s = Except.ok (some d, s1))
    (h2 : s.runningTime = some r)
    (h3 : r ≤ d) :
    (outerBody fuel s1 d).1.head? = some (Act.stopRun (s.clock + r))
    ∧ (handleTimeDone s1 (some d)).1 = true
    ∧ (handleTimeDone s1 (some d)).2.2.clock = s.clock + r
    ∧ (handleTimeDone s1 (some d)).2.2.runningTime = none
    ∧ (∀ n a, (outerBody fuel s1 d).1.get? n = some a →
        (∃ k p t, a = Act.dispatch k p t) → 1 ≤ n) := by
  obtain ⟨hrt, hck⟩ := getTimeForward_fields s h1
  have hrt1 : s1.runningTime = some r := by rw [hrt, h2]
  have hht := handleTimeDone_handled s1 r d hrt1 h3
  have hob : ∃ rest, (outerBody fuel s1 d).1 = Act.stopRun (s1.clock + r) :: rest := by
    unfold outerBody
    rw [hht]
    obtain ⟨rest, hr⟩ :=
      andThen_fst (withActs [Act.stopRun (s1.clock + r)]
        (innerCompletions fuel { s1 with clock := s1.clock + r, runningTime := none }))
        (fun s2 => andThen (drainLoop (s2.events.queue.length + 1) s2) idleStep)
    refine ⟨(innerCompletions fuel { s1 with clock := s1.clock + r, runningTime := none }).1 ++ rest, ?_⟩
    rw [hr]
    simp [withActs]
  obtain ⟨rest, hr⟩ := hob
  refine ⟨?_, ?_, ?_, ?_, ?_⟩
  · rw [hr, hck.symm]
    rfl
  · rw [hht]
  · rw [hht, ← hck]
  · rw [hht]
  · intro n a hget hdisp
    cases n with
    | zero =>
      rw [hr] at hget
      obtain ⟨k, p, t, hk⟩ := hdisp
      rw [hk] at hget
      simp at hget
    | succ n => exact Nat.succ_le_succ (Nat.zero_le n)

/-- The concrete pre-iteration state for the completion-precedence witness:
FCFS, clock 0, a process running with 2 remaining, one queued arrival at
time 5. -/
def c1State : SimSt :=
  { clock := 0, procs := workloadC3,
    events := { queue := [{ etype := 0, pid := 1, time := 5 }], dirty := true },
    runningTime := some 2, sched := Sched.fcfs [] }

/-- The state returned by `getTimeForward` on `c1State` (the peek sorted the
backing list and cleared the dirty flag). -/
def c1StateAfter : SimSt :=
  { c1State with events := { queue := [{ etype := 0, pid := 1, time := 5 }], dirty := false } }

/-- Witness for claim C1 at `c1State`: remaining time 2, delta 5. -/
theorem completion_resolved_before_event_dispatch_witness :
    c1State.events.hasEvent = true
    ∧ getTimeForward c1State = Except.ok (some 5, c1StateAfter)
    ∧ c1State.runningTime = some 2
    ∧ (2 : Int) ≤ 5
    ∧ ((outerBody 5 c1StateAfter 5).1.head? = some (Act.stopRun (c1State.clock + 2))
       ∧ (handleTimeDone c1StateAfter (some 5)).1 = true
       ∧ (handleTimeDone c1StateAfter (some 5)).2.2.clock = c1State.clock + 2
       ∧ (handleTimeDone c1StateAfter (some 5)).2.2.runningTime = none
       ∧ (∀ n a, (outerBody 5 c1StateAfter 5).1.get? n = some a →
           (∃ k p t, a = Act.dispatch k p t) → 1 ≤ n)) :=
  ⟨by decide, by decide, by decide, by decide,
   completion_resolved_before_event_dispatch 5 c1State c1StateAfter 5 2
     (by decide) (by decide) (by decide) (by decide)⟩

/-- The ready queue of the active scheduler variant. -/
def readyList : Sched → List Nat
  | Sched.fcfs r => r
  | Sched.spn r => r

/-- Process ids of the queued events. -/
def eventPids (s : SimSt) : List Nat := s.events.queue.map Event.pid

/-- Process ids reachable from the event queue or the ready queue. -/
def allPids (s : SimSt) : List Nat := eventPids s ++ readyList s.sched

/-- 1 when a process is running. -/
def rtC (s : SimSt) : Nat := if s.runningTime.isSome then 1 else 0

/-- Termination measure of the control loop: each queued event can cause at
most one ready admission and one start, each ready process one start, each
running burst one completion. -/
def simMeasure (s : SimSt) : Nat :=
  3 * s.events.queue.length + (readyList s.sched).length + rtC s

/-- Run-time invariant of the FCFS/SPN simulations: all queued events are
arrivals (nothing ever schedules an UNBLOCK), every process reachable from
the event or ready queue still has a nonempty activity list, and no process
is reachable twice. -/
structure SimInv (s : SimSt) : Prop where
  kinds : ∀ e ∈ s.events.queue, e.etype = ARRIVAL
  keys : ∀ pid ∈ allPids s, (headActivity s.procs pid).isSome = true
  nd : (allPids s).Nodup

theorem prepare_clean (q : EventQueue) (h : q.dirty = false) : q.prepare = q := by
  unfold EventQueue.prepare
  rw [if_neg]
  rw [h]
  exact Bool.false_ne_true

theorem prepare_dirty (q : EventQueue) : (q.prepare).dirty = false := by
  unfold EventQueue.prepare
  split
  · rfl
  · rename_i h
    exact Bool.eq_false_iff.mpr h

theorem lookupProc_set_ne (procs : List Process) (q pid : Nat) (acts : List Int)
    (hne : pid ≠ q) :
    lookupProc (setActivities procs q acts) pid = lookupProc procs pid := by
  induction procs with
  | nil => rfl
  | cons p rest ih =>
    show List.find? _ (List.map _ (p :: rest)) = List.find? _ (p :: rest)
    rw [List.map_cons]
    by_cases hpq : p.pid = q
    · rw [if_pos hpq]
      have hppid : ¬ p.pid = pid := by rw [hpq]; exact fun hc => hne hc.symm
      rw [List.find?_cons_of_neg _ (by simp [hppid]),
          List.find?_cons_of_neg _ (by simp [hppid])]
      exact ih
    · rw [if_neg hpq]
      by_cases hpid : p.pid = pid
      · rw [List.find?_cons_of_pos _ (by simp [hpid]),
            List.find?_cons_of_pos _ (by simp [hpid])]
      · rw [List.find?_cons_of_neg _ (by simp [hpid]),
            List.find?_cons_of_neg _ (by simp [hpid])]
        exact ih

theorem headActivity_set_ne (procs : List Process) (q pid : Nat) (acts : List Int)
    (hne : pid ≠ q) :
    headActivity (setActivities procs q acts) pid = headActivity procs pid := by
  unfold headActivity
  rw [lookupProc_set_ne procs q pid acts hne]

theorem headActivity_isSome_elim (procs : List Process) (pid : Nat)
    (h : (headActivity procs pid).isSome = true) :
    ∃ p a tl, lookupProc procs pid = some p ∧ p.activities = a :: tl := by
  unfold headActivity at h
  cases hl : lookupProc procs pid with
  | none => rw [hl] at h; simp at h
  | some p =>
    rw [hl] at h
    have h2 : (p.activities.head?).isSome = true := h
    cases hact : p.activities with
    | nil => rw [hact] at h2; simp at h2
    | cons a tl => exact ⟨p, a, tl, rfl, hact⟩

theorem headActivity_isSome_of (procs : List Process) (pid : Nat)
    (hex : ∃ p ∈ procs, p.pid = pid)
    (hall : ∀ p ∈ procs, p.activities ≠ []) :
    (headActivity procs pid).isSome = true := by
  obtain ⟨p, hp, he⟩ := hex
  have hfind : (procs.find? (fun q => q.pid == pid)).isSome :=
    List.find?_isSome.mpr ⟨p, hp, by simp [he]⟩
  obtain ⟨q, hq⟩ := Option.isSome_iff_exists.mp hfind
  have hqmem : q ∈ procs := List.mem_of_find?_eq_some hq
  unfold headActivity lookupProc
  rw [hq]
  show (q.activities.head?).isSome = true
  cases hqact : q.activities with
  | nil => exact absurd hqact (hall q hqmem)
  | cons a tl => rfl

theorem handleTimeDone_not_handled (s : SimSt) (m : Int)
    (h : s.runningTime = none ∨ ∃ r, s.runningTime = some r ∧ ¬ r ≤ m) :
    handleTimeDone s (some m) = (false, [], s) := by
  rcases h with h | ⟨r, hr, hnle⟩
  · simp only [handleTimeDone, h]
  · simp only [handleTimeDone, hr, if_neg hnle]

theorem allPids_perm {s s' : SimSt} (hq : List.Perm s'.events.queue s.events.queue)
    (hs : s'.sched = s.sched) : List.Perm (allPids s') (allPids s) := by
  unfold allPids eventPids
  rw [hs]
  exact List.Perm.append (hq.map Event.pid) (List.Perm.refl _)

theorem simInv_congr {s s' : SimSt} (hInv : SimInv s)
    (hq : List.Perm s'.events.queue s.events.queue)
    (hp : s'.procs = s.procs) (hs : s'.sched = s.sched) : SimInv s' := by
  refine ⟨?_, ?_, ?_⟩
  · intro e he
    exact hInv.kinds e (hq.subset he)
  · intro pid hpid
    rw [hp]
    exact hInv.keys pid ((allPids_perm hq hs).subset hpid)
  · exact ((allPids_perm hq hs).nodup_iff).mpr hInv.nd

theorem getTimeForward_ok (s : SimSt) (hInv : SimInv s) :
    ∃ m s1, getTimeForward s = Except.ok (m, s1)
      ∧ SimInv s1 ∧ simMeasure s1 = simMeasure s
      ∧ s1.runningTime = s.runningTime ∧ s1.clock = s.clock
      ∧ s1.procs = s.procs ∧ s1.sched = s.sched
      ∧ (m = none → s1.events.queue = [] ∧ s1.runningTime = none)
      ∧ (∀ d, m = some d → s1.events.queue ≠ [] ∨ s1.runningTime = some d) := by
  by_cases hev : s.events.hasEvent = true
  · have hne : s.events.queue ≠ [] := by
      intro hc
      unfold EventQueue.hasEvent at hev
      rw [hc] at hev
      simp at hev
    have hpne := prepare_queue_ne_nil s.events hne
    refine ⟨some (((s.events.prepare).queue.getLast hpne).time - s.clock),
      { s with events := s.events.prepare }, ?_, ?_, ?_, rfl, rfl, rfl, rfl, ?_, ?_⟩
    · unfold getTimeForward
      rw [if_pos hev, peekE_eq s.events hne]
    · exact simInv_congr hInv (prepare_queue_perm s.events) rfl rfl
    · unfold simMeasure
      rw [show ({ s with events := s.events.prepare } : SimSt).events.queue.length
            = s.events.queue.length from (prepare_queue_perm s.events).length_eq]
      rfl
    · intro hc
      cases hc
    · intro d _
      exact Or.inl hpne
  · have hqe : s.events.queue = [] := by
      by_contra hc
      exact hev (by
        unfold EventQueue.hasEvent
        exact decide_eq_true (List.length_pos.mpr hc))
    cases hrt : s.runningTime with
    | some rt =>
      refine ⟨some rt, s, ?_, hInv, rfl, hrt, rfl, rfl, rfl, ?_, ?_⟩
      · unfold getTimeForward
        rw [if_neg hev, hrt]
      · intro hc
        cases hc
      · intro d hd
        injection hd with hd2
        exact Or.inr (hrt.trans (by rw [hd2]))
    | none =>
      refine ⟨none, s, ?_, hInv, rfl, hrt, rfl, rfl, rfl, ?_, ?_⟩
      · unfold getTimeForward
        rw [if_neg hev, hrt]
      · intro _
        exact ⟨hqe, hrt⟩
      · intro d hd
        cases hd

theorem spnStartNext_ok (s : SimSt) (ready : List Nat)
    (hsch : s.sched = Sched.spn ready)
    (hkinds : ∀ e ∈ s.events.queue, e.etype = ARRIVAL)
    (hkeys : ∀ pid ∈ eventPids s ++ ready, (headActivity s.procs pid).isSome = true)
    (hnd : (eventPids s ++ ready).Nodup) :
    ∃ acts s', spnStartNext s = (acts, Except.ok s')
      ∧ SimInv s'
      ∧ s'.events = s.events ∧ s'.clock = s.clock
      ∧ ((ready = [] ∧ s' = s)
         ∨ (readyList s'.sched).length + rtC s' = ready.length) := by
  have ha : allPids s = eventPids s ++ ready := by
    unfold allPids
    rw [hsch]
    rfl
  cases hready : ready with
  | nil =>
    refine ⟨[], s, ?_, ?_, rfl, rfl, Or.inl ⟨rfl, rfl⟩⟩
    · unfold spnStartNext
      rw [hsch, hready]
    · refine ⟨hkinds, ?_, ?_⟩
      · intro pid hpid
        rw [ha] at hpid
        exact hkeys pid hpid
      · rw [ha]
        exact hnd
  | cons pid0 rest =>
    rw [hready] at hsch hkeys hnd
    have hk0 : (headActivity s.procs pid0).isSome = true :=
      hkeys pid0 (List.mem_append.mpr (Or.inr (List.mem_cons_self pid0 rest)))
    obtain ⟨p, a, tl, hlook, hact⟩ := headActivity_isSome_elim s.procs pid0 hk0
    have hperm : List.Perm (eventPids s ++ (pid0 :: rest)) (pid0 :: (eventPids s ++ rest)) :=
      List.perm_middle
    have hnd3 : (pid0 :: (eventPids s ++ rest)).Nodup := (hperm.nodup_iff).mp hnd
    have hfresh0 : pid0 ∉ eventPids s ++ rest := (List.nodup_cons.mp hnd3).1
    have hndrest : (eventPids s ++ rest).Nodup := (List.nodup_cons.mp hnd3).2
    refine ⟨[Act.start pid0 s.clock],
      { s with sched := Sched.spn rest, procs := setActivities s.procs pid0 tl,
               runningTime := some a }, ?_, ?_, rfl, rfl, Or.inr ?_⟩
    · simp only [spnStartNext, hsch, hlook, hact]
    · refine ⟨?_, ?_, ?_⟩
      · intro e he
        exact hkinds e he
      · intro pid hpid
        have hpid' : pid ∈ eventPids s ++ rest := hpid
        have hne0 : pid ≠ pid0 := fun hc => hfresh0 (hc ▸ hpid')
        show (headActivity (setActivities s.procs pid0 tl) pid).isSome = true
        rw [headActivity_set_ne s.procs pid0 pid tl hne0]
        apply hkeys pid
        rcases List.mem_append.mp hpid' with h | h
        · exact List.mem_append.mpr (Or.inl h)
        · exact List.mem_append.mpr (Or.inr (List.mem_cons_of_mem _ h))
      · exact hndrest
    · show rest.length + rtC _ = (pid0 :: rest).length
      simp [rtC, List.length_cons]

theorem schedArrive_ok (s : SimSt) (pid : Nat)
    (hInv : SimInv s)
    (hkey : (headActivity s.procs pid).isSome = true)
    (hfresh : pid ∉ allPids s) :
    ∃ acts s', schedArrive s pid = (acts, Except.ok s')
      ∧ SimInv s' ∧ s'.events = s.events ∧ s'.clock = s.clock
      ∧ (readyList s'.sched).length + rtC s'
        ≤ (readyList s.sched).length + rtC s + 2 := by
  cases hsch : s.sched with
  | fcfs ready =>
    have ha : allPids s = eventPids s ++ ready := by
      unfold allPids
      rw [hsch]
      rfl
    have hfr : pid ∉ eventPids s ++ ready := by rw [← ha]; exact hfresh
    have hnd0 : (eventPids s ++ ready).Nodup := by rw [← ha]; exact hInv.nd
    have hkeyext : ∀ q ∈ eventPids s ++ (ready ++ [pid]),
        (headActivity s.procs q).isSome = true := by
      intro q hq
      rcases List.mem_append.mp hq with h | h
      · exact hInv.keys q (by rw [ha]; exact List.mem_append.mpr (Or.inl h))
      · rcases List.mem_append.mp h with h2 | h2
        · exact hInv.keys q (by rw [ha]; exact List.mem_append.mpr (Or.inr h2))
        · rw [List.mem_singleton.mp h2]
          exact hkey
    have hndext : (eventPids s ++ (ready ++ [pid])).Nodup := by
      have h1 : (pid :: (eventPids s ++ ready)).Nodup :=
        List.nodup_cons.mpr ⟨hfr, hnd0⟩
      have h2 := ((List.perm_append_singleton pid (eventPids s ++ ready)).nodup_iff).mpr h1
      rw [List.append_assoc] at h2
      exact h2
    by_cases hlen : (ready ++ [pid]).length = 1
    · obtain ⟨p, a, tl, hlook, hact⟩ := headActivity_isSome_elim s.procs pid hkey
      have hha : headActivity s.procs pid = some a := by
        unfold headActivity
        rw [hlook]
        show p.activities.head? = some a
        rw [hact]
        rfl
      refine ⟨[Act.start pid s.clock],
        { s with sched := Sched.fcfs (ready ++ [pid]), runningTime := some a },
        ?_, ?_, rfl, rfl, ?_⟩
      · simp only [schedArrive, hsch, if_pos hlen, hha]
      · exact ⟨hInv.kinds, hkeyext, hndext⟩
      · show (ready ++ [pid]).length + 1 ≤ ready.length + rtC s + 2
        rw [List.length_append]
        simp [rtC]
    · refine ⟨[], { s with sched := Sched.fcfs (ready ++ [pid]) }, ?_, ?_, rfl, rfl, ?_⟩
      · simp only [schedArrive, hsch, if_neg hlen]
      · exact ⟨hInv.kinds, hkeyext, hndext⟩
      · show (ready ++ [pid]).length + rtC s ≤ ready.length + rtC s + 2
        simp only [List.length_append, List.length_singleton]
        omega
  | spn ready =>
    have ha : allPids s = eventPids s ++ ready := by
      unfold allPids
      rw [hsch]
      rfl
    have hfr : pid ∉ eventPids s ++ ready := by rw [← ha]; exact hfresh
    have hnd0 : (eventPids s ++ ready).Nodup := by rw [← ha]; exact hInv.nd
    have hkeyext : ∀ q ∈ eventPids s ++ (ready ++ [pid]),
        (headActivity s.procs q).isSome = true := by
      intro q hq
      rcases List.mem_append.mp hq with h | h
      · exact hInv.keys q (by rw [ha]; exact List.mem_append.mpr (Or.inl h))
      · rcases List.mem_append.mp h with h2 | h2
        · exact hInv.keys q (by rw [ha]; exact List.mem_append.mpr (Or.inr h2))
        · rw [List.mem_singleton.mp h2]
          exact hkey
    have hndext : (eventPids s ++ (ready ++ [pid])).Nodup := by
      have h1 : (pid :: (eventPids s ++ ready)).Nodup :=
        List.nodup_cons.mpr ⟨hfr, hnd0⟩
      have h2 := ((List.perm_append_singleton pid (eventPids s ++ ready)).nodup_iff).mpr h1
      rw [List.append_assoc] at h2
      exact h2
    have hall : (ready ++ [pid]).all (fun q => (headActivity s.procs q).isSome) = true := by
      rw [List.all_eq_true]
      intro q hq
      exact hkeyext q (List.mem_append.mpr (Or.inr hq))
    have hadd : spnAddReady s.procs ready pid
        = Except.ok (List.insertionSort (spnLe s.procs) (ready ++ [pid])) := by
      unfold spnAddReady
      rw [if_pos hall]
    have hpermr : List.Perm (List.insertionSort (spnLe s.procs) (ready ++ [pid]))
        (ready ++ [pid]) := List.perm_insertionSort _ _
    have hkeys1 : ∀ q ∈ eventPids s ++ List.insertionSort (spnLe s.procs) (ready ++ [pid]),
        (headActivity s.procs q).isSome = true := by
      intro q hq
      apply hkeyext q
      exact (List.Perm.append (List.Perm.refl (eventPids s)) hpermr).subset hq
    have hnd1 : (eventPids s ++ List.insertionSort (spnLe s.procs) (ready ++ [pid])).Nodup :=
      ((List.Perm.append (List.Perm.refl (eventPids s)) hpermr).nodup_iff).mpr hndext
    by_cases hrt : s.runningTime = none
    · obtain ⟨acts2, s2, hstart, hInv2, hev2, hck2, hdisj⟩ :=
        spnStartNext_ok
          { s with sched := Sched.spn (List.insertionSort (spnLe s.procs) (ready ++ [pid])) }
          (List.insertionSort (spnLe s.procs) (ready ++ [pid]))
          rfl hInv.kinds hkeys1 hnd1
      refine ⟨acts2, s2, ?_, hInv2, hev2, hck2, ?_⟩
      · simp only [schedArrive, hsch, hadd]
        rw [if_pos (show ({ s with sched := Sched.spn (List.insertionSort (spnLe s.procs) (ready ++ [pid])) } : SimSt).runningTime = none from hrt)]
        exact hstart
      · rcases hdisj with ⟨hnil, hs2⟩ | heq
        · rw [hs2]
          show (List.insertionSort (spnLe s.procs) (ready ++ [pid])).length + rtC _
            ≤ ready.length + rtC s + 2
          rw [hpermr.length_eq, List.length_append]
          simp only [List.length_singleton, rtC]
          omega
        · show (readyList s2.sched).length + rtC s2 ≤ ready.length + rtC s + 2
          rw [heq, hpermr.length_eq, List.length_append]
          simp only [List.length_singleton]
          omega
    · refine ⟨[], { s with sched := Sched.spn (List.insertionSort (spnLe s.procs) (ready ++ [pid])) },
        ?_, ?_, rfl, rfl, ?_⟩
      · simp only [schedArrive, hsch, hadd]
        rw [if_neg (show ¬ ({ s with sched := Sched.spn (List.insertionSort (spnLe s.procs) (ready ++ [pid])) } : SimSt).runningTime = none from hrt)]
      · exact ⟨hInv.kinds, hkeys1, hnd1⟩
      · show (List.insertionSort (spnLe s.procs) (ready ++ [pid])).length + rtC s
          ≤ ready.length + rtC s + 2
        rw [hpermr.length_eq, List.length_append]
        simp only [List.length_singleton]
        omega

theorem processEvent_arrival_ok (s : SimSt) (e : Event)
    (hInv : SimInv s)
    (hkey : (headActivity s.procs e.pid).isSome = true)
    (hfresh : e.pid ∉ allPids s)
    (hkind : e.etype = ARRIVAL) :
    ∃ acts s', processEvent s e = (acts, Except.ok s')
      ∧ SimInv s'
      ∧ s'.events = s.events
      ∧ s'.clock = s.clock
      ∧ (readyList s'.sched).length + rtC s'
        ≤ (readyList s.sched).length + rtC s + 2 := by
  obtain ⟨acts, s', h, hInv', hev, hck, hm⟩ := schedArrive_ok s e.pid hInv hkey hfresh
  refine ⟨Act.dispatch ARRIVAL e.pid e.time :: acts, s', ?_, hInv', hev, hck, hm⟩
  simp only [processEvent, hkind, if_pos, withActs, h]
  rfl

theorem popE_clean (q : EventQueue) (hd : q.dirty = false) (hne : q.queue ≠ []) :
    q.popE = Except.ok (q.queue.getLast hne, { queue := q.queue.dropLast, dirty := false }) := by
  unfold EventQueue.popE
  rw [if_neg hne, prepare_clean q hd, List.getLast?_eq_getLast_of_ne_nil hne]

theorem pop_prepared_facts (s : SimSt) (hInv : SimInv s) (hne : s.events.queue ≠ []) :
    ∃ e,
      (s.events.prepare).popE
        = Except.ok (e, { queue := (s.events.prepare).queue.dropLast, dirty := false })
      ∧ e.etype = ARRIVAL
      ∧ (headActivity s.procs e.pid).isSome = true
      ∧ e.pid ∉ ((s.events.prepare).queue.dropLast.map Event.pid ++ readyList s.sched)
      ∧ ((s.events.prepare).queue.dropLast.map Event.pid ++ readyList s.sched).Nodup
      ∧ (∀ pid ∈ (s.events.prepare).queue.dropLast.map Event.pid ++ readyList s.sched,
          (headActivity s.procs pid).isSome = true)
      ∧ (∀ x ∈ (s.events.prepare).queue.dropLast, x.etype = ARRIVAL)
      ∧ (s.events.prepare).queue.dropLast.length + 1 = s.events.queue.length := by
  have hpne := prepare_queue_ne_nil s.events hne
  have h1 := popE_clean (s.events.prepare) (prepare_dirty _) hpne
  set e := (s.events.prepare).queue.getLast hpne with hedef
  have hsplit : (s.events.prepare).queue.dropLast ++ [e] = (s.events.prepare).queue :=
    List.dropLast_append_getLast hpne
  have hmem : e ∈ s.events.queue :=
    (prepare_queue_perm s.events).subset (List.getLast_mem hpne)
  have hkind : e.etype = ARRIVAL := hInv.kinds e hmem
  have hkey : (headActivity s.procs e.pid).isSome = true :=
    hInv.keys e.pid (List.mem_append.mpr (Or.inl (List.mem_map_of_mem Event.pid hmem)))
  have hpermAll : List.Perm ((s.events.prepare).queue.map Event.pid ++ readyList s.sched)
      (allPids s) :=
    List.Perm.append ((prepare_queue_perm s.events).map Event.pid) (List.Perm.refl _)
  have hndP : ((s.events.prepare).queue.map Event.pid ++ readyList s.sched).Nodup :=
    hpermAll.nodup_iff.mpr hInv.nd
  have hmapsplit : (s.events.prepare).queue.map Event.pid
      = (s.events.prepare).queue.dropLast.map Event.pid ++ [e.pid] := by
    conv_lhs => rw [← hsplit]
    rw [List.map_append]
    rfl
  have hndC : (e.pid :: ((s.events.prepare).queue.dropLast.map Event.pid ++ readyList s.sched)).Nodup := by
    have h2 : ((s.events.prepare).queue.dropLast.map Event.pid ++ [e.pid] ++ readyList s.sched).Nodup := by
      rw [← hmapsplit]
      exact hndP
    rw [List.append_assoc] at h2
    exact (List.perm_middle.nodup_iff).mp h2
  have hfresh : e.pid ∉ (s.events.prepare).queue.dropLast.map Event.pid ++ readyList s.sched :=
    (List.nodup_cons.mp hndC).1
  have hndL : ((s.events.prepare).queue.dropLast.map Event.pid ++ readyList s.sched).Nodup :=
    (List.nodup_cons.mp hndC).2
  refine ⟨e, h1, hkind, hkey, hfresh, hndL, ?_, ?_, ?_⟩
  · intro pid hpid
    apply hInv.keys pid
    apply hpermAll.subset
    rcases List.mem_append.mp hpid with h | h
    · apply List.mem_append.mpr
      apply Or.inl
      rw [hmapsplit]
      exact List.mem_append.mpr (Or.inl h)
    · exact List.mem_append.mpr (Or.inr h)
  · intro x hx
    apply hInv.kinds x
    apply (prepare_queue_perm s.events).subset
    exact List.Sublist.subset (List.dropLast_sublist _) hx
  · have hlen : ((s.events.prepare).queue.dropLast ++ [e]).length
        = (s.events.prepare).queue.length := by rw [hsplit]
    rw [List.length_append, List.length_singleton] at hlen
    rw [hlen]
    exact (prepare_queue_perm s.events).length_eq

theorem hasEvent_ne_nil {q : EventQueue} (hev : q.hasEvent = true) : q.queue ≠ [] := by
  intro hc
  unfold EventQueue.hasEvent at hev
  rw [hc] at hev
  simp at hev

theorem drainLoop_ok : ∀ (n : Nat) (s : SimSt), SimInv s → s.events.queue.length < n →
    ∃ acts s', drainLoop n s = (acts, Except.ok s')
      ∧ SimInv s'
      ∧ simMeasure s' ≤ simMeasure s
      ∧ s'.clock = s.clock := by
  intro n
  induction n with
  | zero =>
    intro s _ h
    exact absurd h (Nat.not_lt_zero _)
  | succ n ih =>
    intro s hInv hlen
    by_cases hev : s.events.hasEvent = true
    · have hne : s.events.queue ≠ [] := hasEvent_ne_nil hev
      have hpk := peekE_eq s.events hne
      by_cases htime : ((s.events.prepare).queue.getLast (prepare_queue_ne_nil s.events hne)).time = s.clock
      · obtain ⟨e2, hpop, hkind2, hkey2, hfresh2, hnd2, hkeys2, hkinds2, hlen2⟩ :=
          pop_prepared_facts s hInv hne
        have hInv2 : SimInv { s with events :=
            { queue := (s.events.prepare).queue.dropLast, dirty := false } } :=
          ⟨hkinds2, hkeys2, hnd2⟩
        obtain ⟨acts3, s3, hproc, hInv3, hev3, hck3, hm3⟩ :=
          processEvent_arrival_ok _ e2 hInv2 hkey2 hfresh2 hkind2
        have hlen3 : s3.events.queue.length < n := by
          rw [hev3]
          show (s.events.prepare).queue.dropLast.length < n
          omega
        obtain ⟨acts4, s4, hrec, hInv4, hm4, hck4⟩ := ih s3 hInv3 hlen3
        refine ⟨acts3 ++ acts4, s4, ?_, hInv4, ?_, ?_⟩
        · show drainLoop (n + 1) s = (acts3 ++ acts4, Except.ok s4)
          simp only [drainLoop]
          rw [if_pos hev, hpk]
          dsimp only
          rw [if_pos htime, hpop]
          simp only [hproc, andThen, hrec]
        · have he1 : s3.events.queue.length + 1 = s.events.queue.length := by
            rw [hev3]
            exact hlen2
          have he2 : (readyList s3.sched).length + rtC s3
              ≤ (readyList s.sched).length + rtC s + 2 := hm3
          unfold simMeasure at hm4 ⊢
          omega
        · rw [hck4, hck3]
      · refine ⟨[], { s with events := s.events.prepare }, ?_,
          simInv_congr hInv (prepare_queue_perm _) rfl rfl, ?_, rfl⟩
        · show drainLoop (n + 1) s = ([], Except.ok { s with events := s.events.prepare })
          simp only [drainLoop]
          rw [if_pos hev, hpk]
          dsimp only
          rw [if_neg htime]
        · unfold simMeasure
          rw [show ({ s with events := s.events.prepare } : SimSt).events.queue.length
                = s.events.queue.length from (prepare_queue_perm s.events).length_eq]
          exact le_refl _
    · refine ⟨[], s, ?_, hInv, le_refl _, rfl⟩
      show drainLoop (n + 1) s = ([], Except.ok s)
      simp only [drainLoop]
      rw [if_neg hev]

theorem idleStep_ok (s : SimSt) (hInv : SimInv s) :
    ∃ acts s', idleStep s = (acts, Except.ok s')
      ∧ SimInv s'
      ∧ simMeasure s' ≤ simMeasure s := by
  by_cases hrt : s.runningTime = none
  · cases hsch : s.sched with
    | fcfs ready =>
      cases ready with
      | nil =>
        refine ⟨[], s, ?_, hInv, le_refl _⟩
        unfold idleStep
        rw [if_pos hrt]
        unfold schedIdle
        rw [hsch]
      | cons pid0 rest =>
        have hk0 : (headActivity s.procs pid0).isSome = true := by
          apply hInv.keys
          unfold allPids
          rw [hsch]
          exact List.mem_append.mpr (Or.inr (List.mem_cons_self _ _))
        obtain ⟨p, a, tl, hlook, hact⟩ := headActivity_isSome_elim s.procs pid0 hk0
        have hha : headActivity s.procs pid0 = some a := by
          unfold headActivity
          rw [hlook]
          show p.activities.head? = some a
          rw [hact]
          rfl
        have hnd0 : (eventPids s ++ (pid0 :: rest)).Nodup := by
          have h0 := hInv.nd
          unfold allPids at h0
          rw [hsch] at h0
          exact h0
        refine ⟨[Act.start pid0 s.clock],
          { s with sched := Sched.fcfs rest, runningTime := some a }, ?_, ?_, ?_⟩
        · unfold idleStep
          rw [if_pos hrt]
          simp only [schedIdle, hsch, hha]
        · refine ⟨hInv.kinds, ?_, ?_⟩
          · intro pid hpid
            apply hInv.keys
            unfold allPids
            rw [hsch]
            have hpid' : pid ∈ eventPids s ++ rest := hpid
            rcases List.mem_append.mp hpid' with h | h
            · exact List.mem_append.mpr (Or.inl h)
            · exact List.mem_append.mpr (Or.inr (List.mem_cons_of_mem _ h))
          · have hperm : List.Perm (eventPids s ++ (pid0 :: rest))
                (pid0 :: (eventPids s ++ rest)) := List.perm_middle
            exact (List.nodup_cons.mp (hperm.nodup_iff.mp hnd0)).2
        · unfold simMeasure rtC
          rw [hsch, hrt]
          show 3 * s.events.queue.length + rest.length + 1
            ≤ 3 * s.events.queue.length + (pid0 :: rest).length + 0
          rw [List.length_cons]
          omega
    | spn ready =>
      cases ready with
      | nil =>
        refine ⟨[], s, ?_, hInv, le_refl _⟩
        unfold idleStep
        rw [if_pos hrt]
        unfold schedIdle
        rw [hsch]
      | cons pid0 rest =>
        have hkeys0 : ∀ pid ∈ eventPids s ++ (pid0 :: rest),
            (headActivity s.procs pid).isSome = true := by
          intro pid hpid
          apply hInv.keys
          unfold allPids
          rw [hsch]
          exact hpid
        have hnd0 : (eventPids s ++ (pid0 :: rest)).Nodup := by
          have h0 := hInv.nd
          unfold allPids at h0
          rw [hsch] at h0
          exact h0
        obtain ⟨acts2, s2, hstart, hInv2, hev2, hck2, hdisj⟩ :=
          spnStartNext_ok s (pid0 :: rest) hsch hInv.kinds hkeys0 hnd0
        refine ⟨acts2, s2, ?_, hInv2, ?_⟩
        · unfold idleStep
          rw [if_pos hrt]
          simp only [schedIdle, hsch]
          exact hstart
        · rcases hdisj with ⟨hnil, _⟩ | heq
          · exact (List.cons_ne_nil _ _ hnil).elim
          · have hL : s2.events.queue.length = s.events.queue.length := by rw [hev2]
            have hz : rtC s = 0 := by
              unfold rtC
              rw [hrt]
              rfl
            have heq2 : (readyList s2.sched).length + rtC s2 = (pid0 :: rest).length := heq
            have hrl : (readyList (Sched.spn (pid0 :: rest))).length = (pid0 :: rest).length := rfl
            unfold simMeasure
            rw [hL, hsch]
            omega
  · refine ⟨[], s, ?_, hInv, le_refl _⟩
    unfold idleStep
    rw [if_neg hrt]

theorem innerCompletions_none (n : Nat) (s : SimSt) (hInv : SimInv s)
    (hrt : s.runningTime = none) (hn : 1 ≤ n) :
    ∃ s1, innerCompletions n s = ([], Except.ok s1)
      ∧ SimInv s1 ∧ simMeasure s1 = simMeasure s
      ∧ s1.runningTime = none ∧ s1.clock = s.clock := by
  obtain ⟨m, rfl⟩ : ∃ m, n = m + 1 := ⟨n - 1, by omega⟩
  obtain ⟨mv, s1, hgt, hInv1, hmu, hrt1, hck1, hpr, hsc, hnone, hsome⟩ := getTimeForward_ok s hInv
  cases mv with
  | none =>
    refine ⟨s1, ?_, hInv1, hmu, by rw [hrt1]; exact hrt, hck1⟩
    simp only [innerCompletions]
    rw [hgt]
  | some d =>
    have hht : handleTimeDone s1 (some d) = (false, [], s1) :=
      handleTimeDone_not_handled s1 d (Or.inl (by rw [hrt1]; exact hrt))
    refine ⟨s1, ?_, hInv1, hmu, by rw [hrt1]; exact hrt, hck1⟩
    simp only [innerCompletions]
    rw [hgt]
    dsimp only
    rw [hht]

theorem dispatchStep_ok (s : SimSt) (m : Int) (hInv : SimInv s)
    (hne : s.events.queue ≠ []) :
    ∃ acts s', dispatchStep s m = (acts, Except.ok s')
      ∧ SimInv s' ∧ simMeasure s' + 1 ≤ simMeasure s := by
  have hL : 0 < s.events.queue.length := List.length_pos.mpr hne
  have hpk := peekE_eq s.events hne
  obtain ⟨e2, hpop, hkind2, hkey2, hfresh2, hnd2, hkeys2, hkinds2, hlen2⟩ :=
    pop_prepared_facts s hInv hne
  cases hrt : s.runningTime with
  | some rt =>
    have hInvE : SimInv { clock := ((s.events.prepare).queue.getLast (prepare_queue_ne_nil s.events hne)).time, procs := s.procs, events := { queue := (s.events.prepare).queue.dropLast, dirty := false }, runningTime := some (rt - m), sched := s.sched } :=
      ⟨hkinds2, hkeys2, hnd2⟩
    obtain ⟨acts3, s3, hproc, hInv3, hev3, hck3, hm3⟩ :=
      processEvent_arrival_ok _ e2 hInvE hkey2 hfresh2 hkind2
    refine ⟨acts3, s3, ?_, hInv3, ?_⟩
    · unfold dispatchStep
      rw [hrt]
      dsimp only
      rw [hpk]
      dsimp only
      rw [hpop]
      dsimp only
      exact hproc
    · have he1 : s3.events.queue.length + 1 = s.events.queue.length := by
        rw [hev3]
        exact hlen2
      have he2 : (readyList s3.sched).length + rtC s3
          ≤ (readyList s.sched).length + 1 + 2 := by
        have h3 := hm3
        have : rtC { clock := ((s.events.prepare).queue.getLast (prepare_queue_ne_nil s.events hne)).time, procs := s.procs, events := { queue := (s.events.prepare).queue.dropLast, dirty := false }, runningTime := some (rt - m), sched := s.sched } = 1 := rfl
        rw [this] at h3
        exact h3
      have hz : rtC s = 1 := by
        unfold rtC
        rw [hrt]
        rfl
      unfold simMeasure
      omega
  | none =>
    have hInvE : SimInv { clock := ((s.events.prepare).queue.getLast (prepare_queue_ne_nil s.events hne)).time, procs := s.procs, events := { queue := (s.events.prepare).queue.dropLast, dirty := false }, runningTime := s.runningTime, sched := s.sched } :=
      ⟨hkinds2, hkeys2, hnd2⟩
    obtain ⟨acts3, s3, hproc, hInv3, hev3, hck3, hm3⟩ :=
      processEvent_arrival_ok _ e2 hInvE hkey2 hfresh2 hkind2
    refine ⟨acts3, s3, ?_, hInv3, ?_⟩
    · unfold dispatchStep
      rw [hrt]
      dsimp only
      rw [hpk]
      dsimp only
      rw [hpop]
      dsimp only
      exact hproc
    · have he1 : s3.events.queue.length + 1 = s.events.queue.length := by
        rw [hev3]
        exact hlen2
      have he2 : (readyList s3.sched).length + rtC s3
          ≤ (readyList s.sched).length + rtC s + 2 := hm3
      unfold simMeasure
      omega

theorem outerBody_ok (fuel : Nat) (s : SimSt) (m : Int) (hInv : SimInv s)
    (hf : 1 ≤ fuel)
    (hprov : s.events.queue ≠ [] ∨ s.runningTime = some m) :
    ∃ acts s', outerBody fuel s m = (acts, Except.ok s')
      ∧ SimInv s' ∧ simMeasure s' + 1 ≤ simMeasure s := by
  by_cases hhandled : ∃ r, s.runningTime = some r ∧ r ≤ m
  · obtain ⟨r, hrt, hle⟩ := hhandled
    have hht := handleTimeDone_handled s r m hrt hle
    have hInvA : SimInv { s with clock := s.clock + r, runningTime := none } :=
      ⟨hInv.kinds, hInv.keys, hInv.nd⟩
    obtain ⟨s2, hinner, hInv2, hmu2, hrt2, hck2⟩ :=
      innerCompletions_none fuel _ hInvA rfl hf
    obtain ⟨acts4, s4, hdrain, hInv4, hmu4, hck4⟩ :=
      drainLoop_ok (s2.events.queue.length + 1) s2 hInv2 (Nat.lt_succ_self _)
    obtain ⟨acts5, s5, hidle, hInv5, hmu5⟩ := idleStep_ok s4 hInv4
    have hzA : simMeasure { s with clock := s.clock + r, runningTime := none } + 1
        = simMeasure s := by
      unfold simMeasure rtC
      rw [hrt]
      rfl
    refine ⟨([Act.stopRun (s.clock + r)] ++ []) ++ (acts4 ++ acts5), s5, ?_, hInv5, ?_⟩
    · simp only [outerBody, hht, withActs, hinner, andThen, hdrain, hidle]
    · omega
  · have hnh : handleTimeDone s (some m) = (false, [], s) := by
      apply handleTimeDone_not_handled
      cases hrt : s.runningTime with
      | none => exact Or.inl rfl
      | some r =>
        exact Or.inr ⟨r, rfl, fun hle => hhandled ⟨r, hrt, hle⟩⟩
    have hne : s.events.queue ≠ [] := by
      rcases hprov with h | h
      · exact h
      · exact absurd ⟨m, h, le_refl m⟩ hhandled
    obtain ⟨acts3, s3, hdisp, hInv3, hmu3⟩ := dispatchStep_ok s m hInv hne
    obtain ⟨acts4, s4, hdrain, hInv4, hmu4, hck4⟩ :=
      drainLoop_ok (s3.events.queue.length + 1) s3 hInv3 (Nat.lt_succ_self _)
    obtain ⟨acts5, s5, hidle, hInv5, hmu5⟩ := idleStep_ok s4 hInv4
    refine ⟨acts3 ++ (acts4 ++ acts5), s5, ?_, hInv5, ?_⟩
    · simp only [outerBody, hnh, andThen, hdisp, hdrain, hidle]
    · omega

theorem runLoop_ok : ∀ (fuel : Nat) (s : SimSt), SimInv s → simMeasure s < fuel →
    ∃ acts s', runLoop fuel s = (acts, Except.ok s')
      ∧ s'.events.queue = [] ∧ s'.runningTime = none := by
  intro fuel
  induction fuel with
  | zero =>
    intro s _ h
    exact absurd h (Nat.not_lt_zero _)
  | succ n ih =>
    intro s hInv hlt
    obtain ⟨mv, s1, hgt, hInv1, hmu1, hrt1, hck1, hpr1, hsc1, hnone, hsome⟩ :=
      getTimeForward_ok s hInv
    cases mv with
    | none =>
      obtain ⟨hq, hr⟩ := hnone rfl
      refine ⟨[], s1, ?_, hq, hr⟩
      simp only [runLoop]
      rw [hgt]
    | some d =>
      have hprov : s1.events.queue ≠ [] ∨ s1.runningTime = some d := hsome d rfl
      obtain ⟨acts2, s2, hob, hInv2, hmu2⟩ :=
        outerBody_ok (n + 1) s1 d hInv1 (Nat.succ_le_succ (Nat.zero_le n)) hprov
      have hlt2 : simMeasure s2 < n := by omega
      obtain ⟨acts3, s3, hrec, hq3, hr3⟩ := ih s2 hInv2 hlt2
      refine ⟨acts2 ++ acts3, s3, ?_, hq3, hr3⟩
      simp only [runLoop]
      rw [hgt]
      dsimp only
      simp only [hob, andThen, hrec]

theorem foldl_addArrival_spec (l : List Process) (acc : SimSt) :
    (l.foldl addArrival acc).events.queue
      = acc.events.queue
        ++ l.map (fun p => ({ etype := ARRIVAL, pid := p.pid, time := p.arrive } : Event))
    ∧ (l.foldl addArrival acc).procs = acc.procs
    ∧ (l.foldl addArrival acc).runningTime = acc.runningTime
    ∧ (l.foldl addArrival acc).sched = acc.sched := by
  induction l generalizing acc with
  | nil => exact ⟨(List.append_nil _).symm, rfl, rfl, rfl⟩
  | cons p rest ih =>
    have h := ih (addArrival acc p)
    refine ⟨?_, ?_, ?_, ?_⟩
    · show (rest.foldl addArrival (addArrival acc p)).events.queue = _
      rw [h.1]
      show (acc.events.queue ++ [_]) ++ _ = _
      rw [List.append_assoc]
      rfl
    · show (rest.foldl addArrival (addArrival acc p)).procs = acc.procs
      rw [h.2.1]
      rfl
    · show (rest.foldl addArrival (addArrival acc p)).runningTime = acc.runningTime
      rw [h.2.2.1]
      rfl
    · show (rest.foldl addArrival (addArrival acc p)).sched = acc.sched
      rw [h.2.2.2]
      rfl

theorem mkProcsFrom_pid_ge (i : Nat) (w : List (Int × List Int)) :
    ∀ p ∈ mkProcsFrom i w, i ≤ p.pid := by
  induction w generalizing i with
  | nil => intro p hp; cases hp
  | cons x rest ih =>
    intro p hp
    rcases List.mem_cons.mp hp with h | h
    · rw [h]
    · have := ih (i + 1) p h
      omega

theorem mkProcsFrom_pids_nodup (i : Nat) (w : List (Int × List Int)) :
    ((mkProcsFrom i w).map Process.pid).Nodup := by
  induction w generalizing i with
  | nil => exact List.Pairwise.nil
  | cons x rest ih =>
    show (i :: (mkProcsFrom (i + 1) rest).map Process.pid).Nodup
    refine List.nodup_cons.mpr ⟨?_, ih (i + 1)⟩
    intro hc
    obtain ⟨p, hp, he⟩ := List.mem_map.mp hc
    have := mkProcsFrom_pid_ge (i + 1) rest p hp
    omega

theorem mkProcsFrom_activities (i : Nat) (w : List (Int × List Int))
    (hw : ∀ x ∈ w, x.2 ≠ []) :
    ∀ p ∈ mkProcsFrom i w, p.activities ≠ [] := by
  induction w generalizing i with
  | nil => intro p hp; cases hp
  | cons x rest ih =>
    intro p hp
    rcases List.mem_cons.mp hp with h | h
    · rw [h]
      exact hw x (List.mem_cons_self _ _)
    · exact ih (i + 1) (fun y hy => hw y (List.mem_cons_of_mem _ hy)) p h

theorem mkProcsFrom_length (i : Nat) (w : List (Int × List Int)) :
    (mkProcsFrom i w).length = w.length := by
  induction w generalizing i with
  | nil => rfl
  | cons x rest ih =>
    show (mkProcsFrom (i + 1) rest).length + 1 = rest.length + 1
    rw [ih (i + 1)]

theorem map_pid_arrival (l : List Process) :
    (l.map (fun p => ({ etype := ARRIVAL, pid := p.pid, time := p.arrive } : Event))).map Event.pid
      = l.map Process.pid := by
  rw [List.map_map]
  rfl

theorem getTimeForward_at_end (s : SimSt) (hq : s.events.queue = [])
    (hr : s.runningTime = none) :
    getTimeForward s = Except.ok (none, s) := by
  have hevf : s.events.hasEvent = false := by
    unfold EventQueue.hasEvent
    rw [hq]
    rfl
  unfold getTimeForward
  rw [if_neg (by rw [hevf]; exact Bool.false_ne_true), hr]

theorem simInv_initialized (w : List (Int × List Int)) (hw : ∀ x ∈ w, x.2 ≠ [])
    (sched0 : Sched) (hready : readyList sched0 = []) :
    SimInv (initializeSim (initSim (mkProcs w) sched0))
    ∧ simMeasure (initializeSim (initSim (mkProcs w) sched0)) = 3 * w.length := by
  have hfold := foldl_addArrival_spec (mkProcs w) (initSim (mkProcs w) sched0)
  have hq : (initializeSim (initSim (mkProcs w) sched0)).events.queue
      = (mkProcs w).map (fun p => ({ etype := ARRIVAL, pid := p.pid, time := p.arrive } : Event)) := by
    show ((mkProcs w).foldl addArrival (initSim (mkProcs w) sched0)).events.queue = _
    rw [hfold.1]
    rfl
  have hpr : (initializeSim (initSim (mkProcs w) sched0)).procs = mkProcs w := by
    show ((mkProcs w).foldl addArrival (initSim (mkProcs w) sched0)).procs = _
    rw [hfold.2.1]
    rfl
  have hsc : (initializeSim (initSim (mkProcs w) sched0)).sched = sched0 := by
    show ((mkProcs w).foldl addArrival (initSim (mkProcs w) sched0)).sched = _
    rw [hfold.2.2.2]
    rfl
  have hrt : (initializeSim (initSim (mkProcs w) sched0)).runningTime = none := by
    show ((mkProcs w).foldl addArrival (initSim (mkProcs w) sched0)).runningTime = _
    rw [hfold.2.2.1]
    rfl
  have hpids : eventPids (initializeSim (initSim (mkProcs w) sched0))
      = (mkProcs w).map Process.pid := by
    unfold eventPids
    rw [hq, map_pid_arrival]
  have hap : allPids (initializeSim (initSim (mkProcs w) sched0))
      = (mkProcs w).map Process.pid ++ [] := by
    unfold allPids
    rw [hpids, hsc, hready]
  constructor
  · refine ⟨?_, ?_, ?_⟩
    · intro e he
      rw [hq] at he
      obtain ⟨p, _, hpe⟩ := List.mem_map.mp he
      rw [← hpe]
    · intro pid hpid
      rw [hap, List.append_nil] at hpid
      obtain ⟨p, hp, hpe⟩ := List.mem_map.mp hpid
      rw [hpr]
      exact headActivity_isSome_of (mkProcs w) pid ⟨p, hp, hpe⟩
        (mkProcsFrom_activities 0 w hw)
    · rw [hap, List.append_nil]
      exact mkProcsFrom_pids_nodup 0 w
  · unfold simMeasure rtC
    rw [hq, hrt, hsc, hready, List.length_map,
      show (mkProcs w).length = w.length from mkProcsFrom_length 0 w]
    simp

/-- Claim C9: for every finite well-formed workload (nonempty positive burst
lists, non-negative arrival times), `Sim.run` terminates under both FCFS and
SPN: with fuel `3 * n + 1` the loop reaches a state where `getTimeForward`
returns none, without raising. -/
theorem run_terminates (w : List (Int × List Int))
    (hw1 : ∀ x ∈ w, x.2 ≠ [])
    (_hw2 : ∀ x ∈ w, ∀ d ∈ x.2, 0 < d)
    (_hw3 : ∀ x ∈ w, 0 ≤ x.1) :
    (∃ acts s', runSim (3 * w.length + 1) (initSim (mkProcs w) (Sched.fcfs []))
        = (acts, Except.ok s')
      ∧ getTimeForward s' = Except.ok (none, s'))
    ∧ (∃ acts s', runSim (3 * w.length + 1) (initSim (mkProcs w) (Sched.spn []))
        = (acts, Except.ok s')
      ∧ getTimeForward s' = Except.ok (none, s')) := by
  constructor
  · obtain ⟨hInv, hmu⟩ := simInv_initialized w hw1 (Sched.fcfs []) rfl
    obtain ⟨acts, s', hrun, hq, hr⟩ :=
      runLoop_ok (3 * w.length + 1) _ hInv (by omega)
    exact ⟨acts, s', hrun, getTimeForward_at_end s' hq hr⟩
  · obtain ⟨hInv, hmu⟩ := simInv_initialized w hw1 (Sched.spn []) rfl
    obtain ⟨acts, s', hrun, hq, hr⟩ :=
      runLoop_ok (3 * w.length + 1) _ hInv (by omega)
    exact ⟨acts, s', hrun, getTimeForward_at_end s' hq hr⟩

/-- Witness for claim C9 at the concrete two-process workload. -/
theorem run_terminates_witness :
    (∀ x ∈ [((0 : Int), [(5 : Int)]), (2, [3])], x.2 ≠ [])
    ∧ (∀ x ∈ [((0 : Int), [(5 : Int)]), (2, [3])], ∀ d ∈ x.2, 0 < d)
    ∧ (∀ x ∈ [((0 : Int), [(5 : Int)]), (2, [3])], 0 ≤ x.1)
    ∧ ((∃ acts s', runSim (3 * ([((0 : Int), [(5 : Int)]), (2, [3])]).length + 1)
          (initSim (mkProcs [((0 : Int), [(5 : Int)]), (2, [3])]) (Sched.fcfs []))
          = (acts, Except.ok s')
        ∧ getTimeForward s' = Except.ok (none, s'))
      ∧ (∃ acts s', runSim (3 * ([((0 : Int), [(5 : Int)]), (2, [3])]).length + 1)
          (initSim (mkProcs [((0 : Int), [(5 : Int)]), (2, [3])]) (Sched.spn []))
          = (acts, Except.ok s')
        ∧ getTimeForward s' = Except.ok (none, s'))) :=
  ⟨by decide, by decide, by decide,
   run_terminates [((0 : Int), [(5 : Int)]), (2, [3])] (by decide) (by decide) (by decide)⟩
